import Mathlib

/-!
# Verification of the Quoridor rules engine (quoridor-core)

Shallow embedding of `quoridor-core/src/{types,player,utils,graph,game}.rs`
and of the strategy layer (`strategy/{base,minimax,mcts}.rs`), together with
proofs settling the frozen claims about the specification.

Modelling conventions:
* Rust `usize` is `Nat`; arithmetic that can panic (underflow, failed
  bounds checks) is modelled with `Option`, `none` standing for a panic.
* `petgraph`'s undirected graph is modelled as the list of its edges
  (unordered pairs of coordinates); `node_indices` membership is a bounds
  check, since `initialize_board_graph` indexes exactly the coordinates
  `(r, c)` with `r, c < size`.
* `HashMap<Player, _>` always holds both players after construction, so it
  is modelled as a total two-field map `PMap`.
* `HashSet<Coord>` is a `List Coord` used with set semantics.
* Rust strings in this code are ASCII, so byte length = char length.
-/

/-- `Player` enum from `player.rs`. -/
inductive Player where
  | Player1
  | Player2
deriving DecidableEq, Repr

/-- `Player::opponent` from `player.rs`. -/
def Player.opponent : Player → Player
  | Player.Player1 => Player.Player2
  | Player.Player2 => Player.Player1

/-- `Player::number` from `player.rs`. -/
def Player.number : Player → Nat
  | Player.Player1 => 1
  | Player.Player2 => 2

/-- `Coord` type alias from `types.rs`: `(row, col)`, `(0, 0)` top-left. -/
abbrev Coord : Type := Nat × Nat

/-- Total map from `Player` to values: model of `HashMap<Player, α>` in a
state where both players are present (which `Quoridor::new` establishes). -/
structure PMap (α : Type) where
  p1 : α
  p2 : α
deriving DecidableEq, Repr

/-- `HashMap::get` (always succeeding). -/
def PMap.get {α : Type} (m : PMap α) : Player → α
  | Player.Player1 => m.p1
  | Player.Player2 => m.p2

/-- `HashMap::insert`. -/
def PMap.insert {α : Type} (m : PMap α) : Player → α → PMap α
  | Player.Player1, v => { m with p1 := v }
  | Player.Player2, v => { m with p2 := v }

/-- ASCII decimal digit test, as in `char::is_ascii_digit`. -/
def isAsciiDigit (c : Char) : Bool :=
  '0' ≤ c ∧ c ≤ '9'

/-- `char::is_ascii_alphabetic`. -/
def isAsciiAlphabetic (c : Char) : Bool :=
  ('a' ≤ c ∧ c ≤ 'z') ∨ ('A' ≤ c ∧ c ≤ 'Z')

/-- `char::to_ascii_lowercase`. -/
def toAsciiLowercase (c : Char) : Char :=
  if 'A' ≤ c ∧ c ≤ 'Z' then Char.ofNat (c.toNat + 32) else c

/-- Model of Rust `str::parse::<usize>` on a char list: an optional leading
`+` sign followed by at least one ASCII digit.  (usize overflow, irrelevant
at the board sizes the claims concern, is not modelled.) -/
def parseUsize (s : List Char) : Option Nat :=
  let digits := match s with
    | '+' :: rest => rest
    | other => other
  if digits.isEmpty then none
  else if digits.all isAsciiDigit then
    some (digits.foldl (fun acc c => acc * 10 + (c.toNat - 48)) 0)
  else none

/-- Decimal representation of a digit `d < 10`, as produced by Rust's
`Display` for `usize`. -/
def digitChar (d : Nat) : Char :=
  Char.ofNat (48 + d)

/-- Fuel-driven most-significant-first digit expansion. -/
def natDigitsAux : Nat → Nat → List Char
  | 0, _ => []
  | _ + 1, 0 => []
  | fuel + 1, n => natDigitsAux fuel (n / 10) ++ [digitChar (n % 10)]

/-- Model of Rust's decimal `Display` for `usize` (`format!("{}", n)`). -/
def natRepr (n : Nat) : String :=
  if n = 0 then "0" else String.mk (natDigitsAux (n + 1) n)

/-- `utils::algebraic_to_coord`.  Converts algebraic notation (e.g. `"e1"`)
to a `(row, col)` coordinate.  The Rust function panics on invalid input;
a panic is modelled as `none`. -/
def algebraic_to_coord (square : String) (board_size : Nat) : Option Coord :=
  let s := square.data
  -- handle wall notation passed erroneously: strip a trailing h/v
  let pos_str :=
    if s.length > 2 ∧ (s.getLast? = some 'h' ∨ s.getLast? = some 'v')
    then s.take 2 else s
  if pos_str.length < 2 then none
  else
    match pos_str with
    | [] => none
    | col_char :: row_str =>
      if ¬ isAsciiAlphabetic col_char then none
      else
        let col := (toAsciiLowercase col_char).toNat - 'a'.toNat
        match parseUsize row_str with
        | some num =>
          if 1 ≤ num ∧ num ≤ board_size then
            -- algebraic row (1-based from bottom) to 0-based index from top
            let row := board_size - num
            if row ≥ board_size ∨ col ≥ board_size then none
            else some (row, col)
          else none
        | none => none

/-- `utils::coord_to_algebraic`.  Panics (here `none`) on out-of-bounds
coordinates. -/
def coord_to_algebraic (coord : Coord) (board_size : Nat) : Option String :=
  if coord.1 ≥ board_size ∨ coord.2 ≥ board_size then none
  else
    let col_char := Char.ofNat ('a'.toNat + coord.2)
    let row_num := board_size - coord.1
    some (String.mk (col_char :: (natRepr row_num).data))

/-- Total wrapper for `coord_to_algebraic` used where the source converts
coordinates that are always in bounds (wall sets, pawn positions, legal-move
enumeration); the default is never reached there. -/
def coordAlg (coord : Coord) (board_size : Nat) : String :=
  (coord_to_algebraic coord board_size).getD ""

/-! ## Graph layer (`graph.rs`)

The `petgraph::UnGraph` is modelled by its edge list.  `node_indices`
contains exactly the coordinates with both components `< size`, so a
`node_indices.get` lookup is modelled by the bounds test `inBoard`. -/

/-- Membership of a coordinate in `node_indices`. -/
def inBoard (size : Nat) (c : Coord) : Bool :=
  c.1 < size ∧ c.2 < size

/-- Edge set built by `graph::initialize_board_graph`: every cell connects
to its right and bottom neighbours. -/
def initialize_board_graph (size : Nat) : List (Coord × Coord) :=
  (List.range size).flatMap fun r =>
    (List.range size).flatMap fun c =>
      (if c + 1 < size then [((r, c), (r, c + 1))] else []) ++
      (if r + 1 < size then [((r, c), (r + 1, c))] else [])

/-- `UnGraph::contains_edge`: an undirected edge exists in either stored
orientation. -/
def containsEdge (edges : List (Coord × Coord)) (a b : Coord) : Bool :=
  edges.any fun e => (e.1 = a ∧ e.2 = b) ∨ (e.1 = b ∧ e.2 = a)

/-- `graph.neighbors(node)`: all opposite endpoints of incident edges. -/
def neighborsList (edges : List (Coord × Coord)) (c : Coord) : List Coord :=
  edges.filterMap fun e =>
    if e.1 = c then some e.2 else if e.2 = c then some e.1 else none

/-- `find_edge` + `remove_edge`: delete the first stored occurrence of the
undirected edge `a -- b`, if any. -/
def removeEdge (edges : List (Coord × Coord)) (a b : Coord) :
    List (Coord × Coord) :=
  match edges with
  | [] => []
  | e :: rest =>
    if (e.1 = a ∧ e.2 = b) ∨ (e.1 = b ∧ e.2 = a) then rest
    else e :: removeEdge rest a b

/-- The edge-removal loop of `is_wall_placement_valid`: every listed edge
must have both endpoints in `node_indices` and be present in the (shrinking)
graph, otherwise the placement is rejected (`return false`, here `none`). -/
def removeEdgesChecked (size : Nat) (edges : List (Coord × Coord)) :
    List (Coord × Coord) → Option (List (Coord × Coord))
  | [] => some edges
  | (u, v) :: rest =>
    if inBoard size u ∧ inBoard size v then
      if containsEdge edges u v then
        removeEdgesChecked size (removeEdge edges u v) rest
      else none
    else none

/-- The edge-removal loop of `add_wall_internal`: missing edges or
out-of-board endpoints are silently skipped. -/
def removeEdgesLenient (size : Nat) (edges : List (Coord × Coord)) :
    List (Coord × Coord) → List (Coord × Coord)
  | [] => edges
  | (u, v) :: rest =>
    if inBoard size u ∧ inBoard size v then
      removeEdgesLenient size (removeEdge edges u v) rest
    else removeEdgesLenient size edges rest

/-- `graph::get_blocked_edges_by_wall`: the two edges a wall severs.
The Rust function marks the second entry with `(usize::MAX, usize::MAX)`
for a top-row vertical wall and each caller filters that dummy pair out;
the dummy and the filter cancel, so the filtered list is returned here. -/
def get_blocked_edges_by_wall (wall_coord : Coord) (orientation : Char)
    (size : Nat) : Option (List (Coord × Coord)) :=
  let r := wall_coord.1
  let c := wall_coord.2
  match orientation with
  | 'h' =>
    if r > 0 ∧ c + 1 < size then
      some [((r - 1, c), (r, c)), ((r - 1, c + 1), (r, c + 1))]
    else none
  | 'v' =>
    if r > 0 ∧ c + 1 < size then
      some [((r, c), (r, c + 1)), ((r - 1, c), (r - 1, c + 1))]
    else if r = 0 ∧ c + 1 < size then
      some [((r, c), (r, c + 1))]
    else none
  | _ => none

/-- Breadth-first search levels.  `dist` maps visited coordinates to their
distance from the start, `frontier` is the current level, `d` its distance.
Models the unit-weight `dijkstra` (and, via reachability, petgraph's
`has_path_connecting`) on the edge-list graph. -/
def bfsAux (edges : List (Coord × Coord)) :
    Nat → List (Coord × Nat) → List Coord → Nat → List (Coord × Nat)
  | 0, dist, _, _ => dist
  | fuel + 1, dist, frontier, d =>
    if frontier.isEmpty then dist
    else
      let nf := ((frontier.flatMap (neighborsList edges)).dedup).filter
        fun c => (List.lookup c dist).isNone
      bfsAux edges fuel (dist ++ nf.map fun c => (c, d + 1)) nf (d + 1)

/-- Enough BFS levels to exhaust any graph on this edge list: each level
visits at least one new vertex and there are at most `2·|edges| + 1`
vertices incident to an edge. -/
def bfsFuel (edges : List (Coord × Coord)) : Nat :=
  2 * edges.length + 2

/-- Full distance map of the unit-weight single-source shortest-path run
(`dijkstra(&graph, start, None, |_| 1)`). -/
def bfsDistMap (edges : List (Coord × Coord)) (start : Coord) :
    List (Coord × Nat) :=
  bfsAux edges (bfsFuel edges) [(start, 0)] [start] 0

/-- `has_path_connecting(graph, start, goal, None)`: reachability, taken
from the same search that defines shortest-path distances. -/
def hasPathB (edges : List (Coord × Coord)) (start goal : Coord) : Bool :=
  (List.lookup goal (bfsDistMap edges start)).isSome

/-- `graph::check_wall_path_blocking`: every player must still reach some
goal cell.  The iteration order over the two-entry `HashMap` is immaterial
to the conjunctive result. -/
def check_wall_path_blocking (edges : List (Coord × Coord)) (size : Nat)
    (pawn_positions : PMap Coord) (goal_positions : PMap (List Coord)) :
    Bool :=
  [Player.Player1, Player.Player2].all fun player =>
    let start := pawn_positions.get player
    if inBoard size start then
      (goal_positions.get player).any fun goal =>
        inBoard size goal ∧ hasPathB edges start goal
    else false

/-- Minimum of optional distances; `none` plays the role of `usize::MAX`. -/
def optMin : Option Nat → Option Nat → Option Nat
  | none, d => d
  | some a, none => some a
  | some a, some b => some (min a b)

/-- `graph::get_shortest_path_len`: minimum distance from `start` to any
goal coordinate, `none` (the source's `usize::MAX`) when unreachable. -/
def get_shortest_path_len (edges : List (Coord × Coord)) (size : Nat)
    (start : Coord) (goal_coords : List Coord) : Option Nat :=
  if inBoard size start then
    let distances := bfsDistMap edges start
    goal_coords.foldl
      (fun acc goal =>
        if inBoard size goal then optMin acc (List.lookup goal distances)
        else acc)
      none
  else none

/-! ## Game state (`game.rs`) -/

/-- The `Quoridor` struct.  `graph`/`node_indices` are represented by the
edge list (`edges`) plus the `inBoard` bounds test. -/
structure Quoridor where
  size : Nat
  walls : Nat
  edges : List (Coord × Coord)
  hwall_positions : List Coord
  vwall_positions : List Coord
  pawn_positions : PMap Coord
  walls_available : PMap Nat
  active_player : Player
  goal_positions : PMap (List Coord)
  state_string : String
  previous_state : String
  last_move : String
deriving DecidableEq, Repr

/-- Sort key used by `update_state_string`: row descending, then column
ascending (`b.0.cmp(&a.0).then(a.1.cmp(&b.1))`). -/
def wallSortLE (a b : Coord) : Bool :=
  b.1 < a.1 ∨ (a.1 = b.1 ∧ a.2 ≤ b.2)

/-- Insert into a `wallSortLE`-sorted list. -/
def wallSortInsert (a : Coord) : List Coord → List Coord
  | [] => [a]
  | b :: rest =>
    if wallSortLE a b then a :: b :: rest else b :: wallSortInsert a rest

/-- Model of `sort_by` with the `update_state_string` comparator (insertion
sort; the wall sets are duplicate-free, so any sort by this total order
produces the same list as Rust's stable sort). -/
def wallSort : List Coord → List Coord
  | [] => []
  | a :: rest => wallSortInsert a (wallSort rest)

/-- `Quoridor::update_state_string`: switches the active player unless
`keep_player`, then rebuilds the canonical state string. -/
def Quoridor.update_state_string (g : Quoridor) (keep_player : Bool) :
    Quoridor :=
  let g :=
    if keep_player then g
    else { g with active_player := g.active_player.opponent }
  let player_char := natRepr g.active_player.number
  let h_coords := wallSort g.hwall_positions
  let v_coords := wallSort g.vwall_positions
  let hwall_str := String.join (h_coords.map fun pos => coordAlg pos g.size)
  let vwall_str := String.join (v_coords.map fun pos => coordAlg pos g.size)
  let p1_pos_str := coordAlg (g.pawn_positions.get Player.Player1) g.size
  let p2_pos_str := coordAlg (g.pawn_positions.get Player.Player2) g.size
  let p1_walls_str := natRepr (g.walls_available.get Player.Player1)
  let p2_walls_str := natRepr (g.walls_available.get Player.Player2)
  { g with state_string :=
      hwall_str ++ " / " ++ vwall_str ++ " / " ++ p1_pos_str ++ " " ++
      p2_pos_str ++ " / " ++ p1_walls_str ++ " " ++ p2_walls_str ++ " / " ++
      player_char }

/-- Body of `Quoridor::new` after the size guard, without a state string to
load: default starting position. -/
def Quoridor.mkNew (size walls : Nat) : Quoridor :=
  let center := size / 2
  let game : Quoridor :=
    { size := size
      walls := walls
      edges := initialize_board_graph size
      hwall_positions := []
      vwall_positions := []
      pawn_positions :=
        { p1 := (size - 1, center), p2 := (0, center) }
      walls_available := { p1 := walls, p2 := walls }
      active_player := Player.Player1
      goal_positions :=
        { p1 := (List.range size).map fun c => (0, c)
          p2 := (List.range size).map fun c => (size - 1, c) }
      state_string := ""
      previous_state := ""
      last_move := "None" }
  game.update_state_string true

/-- `Quoridor::new` without a state string; panics (`none`) unless the size
is an odd number `≥ 3`. -/
def Quoridor.new (size walls : Nat) : Option Quoridor :=
  if size < 3 ∨ size % 2 = 0 then none else some (Quoridor.mkNew size walls)

/-- The straight-jump landing square two steps past the opponent, computed
in `i32` in the source:
`jump = own + 2 * (opponent - own) = 2 * opponent - own`. -/
def jumpLanding (own opp : Coord) : Int × Int :=
  ((own.1 : Int) + 2 * ((opp.1 : Int) - (own.1 : Int)),
   (own.2 : Int) + 2 * ((opp.2 : Int) - (own.2 : Int)))

/-- Whether the straight-jump landing square is on the board. -/
def jumpOnBoard (size : Nat) (j : Int × Int) : Bool :=
  0 ≤ j.1 ∧ j.1 < (size : Int) ∧ 0 ≤ j.2 ∧ j.2 < (size : Int)

/-- The coordinates contributed by one neighbour of the moving player's
cell in `get_legal_moves`: the straight jump when the neighbour is the
opponent and the landing square behind it is on the board and connected,
the opponent's other neighbours when the jump is blocked (no such edge, or
off-board — the source's `jump_blocked` recomputation via a wrapped
`usize` cast and a failed `node_indices` lookup collapses to exactly this
test), and the neighbour itself otherwise. -/
def pawnMoveCandidates (g : Quoridor) (own_pos opponent_pos : Coord)
    (neighbor_pos : Coord) : List Coord :=
  if neighbor_pos = opponent_pos then
    let j := jumpLanding own_pos opponent_pos
    let jump_pos : Coord := (j.1.toNat, j.2.toNat)
    if jumpOnBoard g.size j ∧ containsEdge g.edges opponent_pos jump_pos then
      [jump_pos]
    else
      (neighborsList g.edges opponent_pos).filter
        fun op_neighbor_pos => op_neighbor_pos ≠ own_pos
  else [neighbor_pos]

/-- The set of destination coordinates collected by
`Quoridor::get_legal_moves` (before conversion to algebraic notation). -/
def Quoridor.legal_pawn_coords (g : Quoridor) (player : Player) :
    List Coord :=
  let opponent := player.opponent
  let own_pos := g.pawn_positions.get player
  let opponent_pos := g.pawn_positions.get opponent
  (neighborsList g.edges own_pos).flatMap
    (pawnMoveCandidates g own_pos opponent_pos)

/-- `Quoridor::get_legal_moves`: the destination set (a `HashSet`, modelled
by `dedup`) converted to algebraic notation.  The source's `HashSet` is
freshly seeded per call, so its iteration order — hence the order of the
returned `Vec` — varies between invocations; this model fixes one
enumeration order.  Reachability and membership claims are unaffected (the
set is the same); statements sensitive to the order, such as minimax
tie-breaking, are instead made relative to an explicitly supplied
enumeration (`MinimaxStrategy.choose_move_from`). -/
def Quoridor.get_legal_moves (g : Quoridor) (player : Player) :
    List String :=
  ((g.legal_pawn_coords player).dedup).map fun coord => coordAlg coord g.size

/-- The overlap/intersection block of `is_wall_placement_valid` (step 2 in
the source): the sequence of `return false` checks against both wall sets,
per orientation.  `true` means no check fired. -/
def Quoridor.wallOverlapFree (g : Quoridor) (wall_coord : Coord)
    (orientation : Char) : Bool :=
  match orientation with
  | 'h' =>
    if wall_coord ∈ g.hwall_positions then false
    else if wall_coord.2 > 0 ∧
        (wall_coord.1, wall_coord.2 - 1) ∈ g.hwall_positions then false
    else if wall_coord.2 + 1 < g.size - 1 ∧
        (wall_coord.1, wall_coord.2 + 1) ∈ g.hwall_positions then false
    else if wall_coord ∈ g.vwall_positions then false
    else if wall_coord.2 + 1 < g.size ∧
        (wall_coord.1, wall_coord.2 + 1) ∈ g.vwall_positions then false
    else true
  | 'v' =>
    if wall_coord ∈ g.vwall_positions then false
    else if wall_coord.1 > 1 ∧
        (wall_coord.1 - 1, wall_coord.2) ∈ g.vwall_positions then false
    else if wall_coord.1 + 1 < g.size ∧
        (wall_coord.1 + 1, wall_coord.2) ∈ g.vwall_positions then false
    else if wall_coord ∈ g.hwall_positions then false
    else if wall_coord.1 + 1 < g.size ∧
        (wall_coord.1 + 1, wall_coord.2) ∈ g.hwall_positions then false
    else true
  | _ => false

/-- `Quoridor::is_wall_placement_valid`: wall availability, overlap and
crossing checks, then the connectivity check on a temporary graph with the
wall's two edges removed. -/
def Quoridor.is_wall_placement_valid (g : Quoridor) (player : Player)
    (wall_coord : Coord) (orientation : Char) : Bool :=
  if g.walls_available.get player = 0 then false
  else
    if ¬ g.wallOverlapFree wall_coord orientation then false
    else
      match get_blocked_edges_by_wall wall_coord orientation g.size with
      | some edges_to_remove =>
        match removeEdgesChecked g.size g.edges edges_to_remove with
        | some temp_graph =>
          check_wall_path_blocking temp_graph g.size g.pawn_positions
            g.goal_positions
        | none => false
      | none => false

/-- `Quoridor::get_legal_walls`: every anchor `r ∈ [1, size)`,
`c ∈ [0, size-1)` whose placement passes `is_wall_placement_valid`,
horizontal before vertical at each anchor. -/
def Quoridor.get_legal_walls (g : Quoridor) (player : Player) :
    List String :=
  if g.walls_available.get player = 0 then []
  else
    (List.range' 1 (g.size - 1)).flatMap fun r =>
      (List.range (g.size - 1)).flatMap fun c =>
        (if g.is_wall_placement_valid player (r, c) 'h'
         then [coordAlg (r, c) g.size ++ "h"] else []) ++
        (if g.is_wall_placement_valid player (r, c) 'v'
         then [coordAlg (r, c) g.size ++ "v"] else [])

/-- Edge removal and per-move bookkeeping of `add_wall_internal`, shared by
both orientations: remove the wall's edges, and unless initialising update
history, decrement the active player's wall count (a `usize` subtraction
that panics — `none` — at zero) and switch the player. -/
def Quoridor.addWallFinish (g1 : Quoridor) (wall_move : String)
    (is_initialising : Bool) (wall_coord : Coord) (orientation : Char) :
    Option (Bool × Quoridor) :=
  let g2 :=
    match get_blocked_edges_by_wall wall_coord orientation g1.size with
    | some edges_to_remove =>
      { g1 with
        edges := removeEdgesLenient g1.size g1.edges edges_to_remove }
    | none => g1
  if is_initialising then some (true, g2)
  else
    let w := g2.walls_available.get g2.active_player
    if w = 0 then none  -- usize underflow in `-= 1`
    else
      let g3 :=
        { g2 with
          previous_state := g2.state_string
          walls_available :=
            g2.walls_available.insert g2.active_player (w - 1)
          last_move := wall_move }
      some (true, g3.update_state_string false)

/-- `Quoridor::add_wall_internal`: record the wall, then apply
`addWallFinish`. -/
def Quoridor.add_wall_internal (g : Quoridor) (wall_move : String)
    (is_initialising : Bool) : Option (Bool × Quoridor) :=
  match wall_move.data.getLast? with
  | none => some (false, g)
  | some orientation =>
    let pos_alg := String.mk wall_move.data.dropLast
    match algebraic_to_coord pos_alg g.size with
    | none => none
    | some wall_coord =>
      match orientation with
      | 'h' =>
        let g1 :=
          { g with hwall_positions := g.hwall_positions.insert wall_coord }
        Quoridor.addWallFinish g1 wall_move is_initialising wall_coord 'h'
      | 'v' =>
        let g1 :=
          { g with vwall_positions := g.vwall_positions.insert wall_coord }
        Quoridor.addWallFinish g1 wall_move is_initialising wall_coord 'v'
      | _ => some (false, g)

/-- `Quoridor::add_wall`: format checks, optional legality check, then the
internal application. -/
def Quoridor.add_wall (g : Quoridor) (wall_move : String)
    (is_initialising check : Bool) : Option (Bool × Quoridor) :=
  if wall_move.length < 3 then some (false, g)
  else
    match wall_move.data.getLast? with
    | none => some (false, g)
    | some orientation =>
      if orientation ≠ 'h' ∧ orientation ≠ 'v' then some (false, g)
      else
        let pos_alg := String.mk wall_move.data.dropLast
        match algebraic_to_coord pos_alg g.size with
        | none => none
        | some wall_coord =>
          if check ∧
              ¬ g.is_wall_placement_valid g.active_player wall_coord
                orientation then
            some (false, g)
          else g.add_wall_internal wall_move is_initialising

/-- `Quoridor::move_pawn`: decode the destination (panicking — `none` — on
malformed notation), optionally check membership in the legal-move list,
then update the pawn position and the history fields and switch player. -/
def Quoridor.move_pawn (g : Quoridor) (move_alg : String) (check : Bool) :
    Option (Bool × Quoridor) :=
  match algebraic_to_coord move_alg g.size with
  | none => none
  | some destination =>
    if check ∧ move_alg ∉ g.get_legal_moves g.active_player then
      some (false, g)
    else
      let g1 :=
        { g with pawn_positions :=
            g.pawn_positions.insert g.active_player destination }
      let g2 :=
        { g1 with
          previous_state := g1.state_string
          last_move := move_alg }
      some (true, g2.update_state_string false)

/-- `Quoridor::win_check`: a length-2 pawn move whose destination lies on
the active player's goal line.  Decoding a malformed 2-character string
would panic in the source; such strings do not arise from the legal-move
lists this is applied to, and are mapped to `false` here. -/
def Quoridor.win_check (g : Quoridor) (move_alg : String) : Bool :=
  if move_alg.length ≠ 2 then false
  else
    match algebraic_to_coord move_alg g.size with
    | some destination =>
      (g.goal_positions.get g.active_player).contains destination
    | none => false

/-- `Quoridor::distance_to_goal`: shortest-path distance to the goal line,
`100` when unreachable. -/
def Quoridor.distance_to_goal (g : Quoridor) (player : Player) : Nat :=
  match get_shortest_path_len g.edges g.size (g.pawn_positions.get player)
      (g.goal_positions.get player) with
  | some dist => dist
  | none => 100

/-- `Quoridor::moves_to_next_row`: distance to the nearest cell of the next
rank toward the goal; `0` on the goal rank, `100` when stuck. -/
def Quoridor.moves_to_next_row (g : Quoridor) (player : Player) : Nat :=
  let start_coord := g.pawn_positions.get player
  if ¬ inBoard g.size start_coord then 100
  else
    let atGoal : Bool :=
      match player with
      | Player.Player1 => start_coord.1 = 0
      | Player.Player2 => start_coord.1 = g.size - 1
    if atGoal then 0
    else
      let target_row :=
        match player with
        | Player.Player1 => start_coord.1 - 1
        | Player.Player2 => min (start_coord.1 + 1) (g.size - 1)
      let target_cells := (List.range g.size).map fun c => (target_row, c)
      if target_cells.isEmpty then 100
      else
        let distances := bfsDistMap g.edges start_coord
        let min_dist := target_cells.foldl
          (fun acc t => optMin acc (List.lookup t distances)) none
        match min_dist with
        | some d => d
        | none => 100

/-! ## Strategy base (`strategy/base.rs`) -/

/-- The `QuoridorStrategy` base struct: name, opening-book moves, and the
internal move counter. -/
structure QuoridorStrategy where
  name : String
  opening_moves : List String
  move_counter : Nat
deriving DecidableEq, Repr

/-- `QuoridorStrategy::new`. -/
def QuoridorStrategy.new (base_name opening_name : String)
    (opening_moves : List String) : QuoridorStrategy :=
  let full_name :=
    if opening_name = "" ∨ opening_name = "No Opening" ∨
        opening_moves.isEmpty then base_name
    else base_name ++ "-" ++ opening_name
  { name := full_name, opening_moves := opening_moves, move_counter := 0 }

/-- `QuoridorStrategy::try_opening_move`: return the next scripted move if
it is legal in the current position; in either case (legal or skipped) the
counter advances past it. -/
def QuoridorStrategy.try_opening_move (s : QuoridorStrategy)
    (game : Quoridor) : Option String × QuoridorStrategy :=
  if s.move_counter < s.opening_moves.length then
    let move_str := s.opening_moves.getD s.move_counter ""
    let legal_pawn := game.get_legal_moves game.active_player
    let legal_walls := game.get_legal_walls game.active_player
    if move_str ∈ legal_pawn ∨ move_str ∈ legal_walls then
      (some move_str, { s with move_counter := s.move_counter + 1 })
    else
      (none, { s with move_counter := s.move_counter + 1 })
  else (none, s)

/-! ## Minimax (`strategy/minimax.rs`)

The evaluation scores are `f64` in the source.  They are modelled by exact
rationals extended with the two infinities (`FScore`); the fixed weights
`0.6001`, `14.45`, `6.52`, `0.1` are carried as exact decimal fractions.
This stands in for IEEE double arithmetic; the claims settled against the
minimax embedding (determinism and statefulness of `choose_move`) do not
depend on the numeric values. -/

/-- `f64` values appearing in minimax: finite scores plus
`f64::INFINITY` / `f64::NEG_INFINITY`. -/
inductive FScore where
  | negInf
  | fin (q : ℚ)
  | posInf
deriving DecidableEq

/-- `<=` on scores. -/
def FScore.le : FScore → FScore → Bool
  | FScore.negInf, _ => true
  | _, FScore.posInf => true
  | FScore.fin a, FScore.fin b => a ≤ b
  | _, _ => false

/-- `<` on scores. -/
def FScore.lt (a b : FScore) : Bool :=
  ¬ FScore.le b a

/-- `f64::max`. -/
def FScore.max (a b : FScore) : FScore :=
  if FScore.le a b then b else a

/-- `f64::min`. -/
def FScore.min (a b : FScore) : FScore :=
  if FScore.le a b then a else b

/-- The `MinimaxStrategy` struct. -/
structure MinimaxStrategy where
  base : QuoridorStrategy
  depth : Nat
deriving DecidableEq, Repr

/-- `MinimaxStrategy::new`; panics (`none`) at depth `0`. -/
def MinimaxStrategy.new (opening_name : String)
    (opening_moves : List String) (depth : Nat) :
    Option MinimaxStrategy :=
  if depth = 0 then none
  else
    let name := "Minimax" ++ natRepr depth
    some { base := QuoridorStrategy.new name opening_name opening_moves
           depth := depth }

/-- `MinimaxStrategy::evaluate_state`: the fixed linear combination of the
distance difference, the reciprocal next-row term and the opponent
next-row penalty (Mertens C3 weights). -/
def MinimaxStrategy.evaluate_state (game : Quoridor) : ℚ :=
  let p1_dist : ℚ := game.distance_to_goal Player.Player1
  let p2_dist : ℚ := game.distance_to_goal Player.Player2
  let f2_pos_diff := p2_dist - p1_dist
  let p1_moves_next : ℚ := game.moves_to_next_row Player.Player1
  let f3_p1_attack : ℚ :=
    if p1_moves_next = 0 then 100 else 1 / (p1_moves_next + 1/10)
  let p2_moves_next : ℚ := game.moves_to_next_row Player.Player2
  let f4_p2_defense := p2_moves_next
  (6001/10000) * f2_pos_diff + (1445/100) * f3_p1_attack
    - (652/100) * f4_p2_defense

/-- The per-move simulation step used by minimax (`add_wall` unchecked for
length-≥3 strings, `move_pawn` unchecked otherwise).  A `false` result is
the source's `continue`; move strings taken from the legal-move lists never
panic, so `none` results are folded into the skip as well. -/
def applySimMove (g : Quoridor) (move_str : String) : Option Quoridor :=
  match (if move_str.length ≥ 3 then g.add_wall move_str false false
         else g.move_pawn move_str false) with
  | some (true, g') => some g'
  | _ => none

/-- The maximizing branch of the alpha-beta loop: fold over the moves,
raising `alpha`, with a beta cut-off. -/
def abMaxLoop (recurse : Quoridor → FScore → FScore → FScore)
    (g : Quoridor) :
    List String → FScore → FScore → FScore → FScore
  | [], _, _, best => best
  | move_str :: rest, alpha, beta, best =>
    match applySimMove g move_str with
    | none => abMaxLoop recurse g rest alpha beta best
    | some next_game =>
      let e := recurse next_game alpha beta
      let best' := FScore.max best e
      let alpha' := FScore.max alpha e
      if FScore.le beta alpha' then best'
      else abMaxLoop recurse g rest alpha' beta best'

/-- The minimizing branch of the alpha-beta loop. -/
def abMinLoop (recurse : Quoridor → FScore → FScore → FScore)
    (g : Quoridor) :
    List String → FScore → FScore → FScore → FScore
  | [], _, _, best => best
  | move_str :: rest, alpha, beta, best =>
    match applySimMove g move_str with
    | none => abMinLoop recurse g rest alpha beta best
    | some next_game =>
      let e := recurse next_game alpha beta
      let best' := FScore.min best e
      let beta' := FScore.min beta e
      if FScore.le beta' alpha then best'
      else abMinLoop recurse g rest alpha beta' best'

/-- `MinimaxStrategy::minimax_alphabeta`: terminal detection for the player
who just moved, depth-0 evaluation, and the alternating pruned recursion. -/
def MinimaxStrategy.minimax_alphabeta (strat : MinimaxStrategy) :
    Nat → Quoridor → FScore → FScore → Bool → FScore
  | depth, game, alpha, beta, is_maximizing_player =>
    let last_player := game.active_player.opponent
    if (game.goal_positions.get last_player).contains
        (game.pawn_positions.get last_player) then
      if last_player = Player.Player1 then FScore.posInf else FScore.negInf
    else
      match depth with
      | 0 => FScore.fin (MinimaxStrategy.evaluate_state game)
      | d + 1 =>
        let all_moves := game.get_legal_moves game.active_player ++
          game.get_legal_walls game.active_player
        if all_moves.isEmpty then
          if is_maximizing_player then FScore.negInf else FScore.posInf
        else if is_maximizing_player then
          abMaxLoop (fun g' a b => strat.minimax_alphabeta d g' a b false)
            game all_moves alpha beta FScore.negInf
        else
          abMinLoop (fun g' a b => strat.minimax_alphabeta d g' a b true)
            game all_moves alpha beta FScore.posInf

/-- The root loop of `MinimaxStrategy::choose_move`: evaluate every move
one ply into the minimizing recursion, keeping the strictly best (first on
ties). -/
def minimaxRootLoop (strat : MinimaxStrategy) (g : Quoridor) :
    List String → FScore → Option String → Option String
  | [], _, best_move => best_move
  | move_str :: rest, best_score, best_move =>
    match applySimMove g move_str with
    | none => minimaxRootLoop strat g rest best_score best_move
    | some next_game =>
      let score := strat.minimax_alphabeta (strat.depth - 1) next_game
        FScore.negInf FScore.posInf false
      if FScore.lt best_score score then
        minimaxRootLoop strat g rest score (some move_str)
      else minimaxRootLoop strat g rest best_score best_move

/-- `MinimaxStrategy::choose_move` (the `Strategy` impl): opening book
first, then immediate wins, then the root minimax loop with its fallback.
Returns the chosen move together with the updated strategy state (the
mutation of `&mut self` by the opening counter). -/
def MinimaxStrategy.choose_move (s : MinimaxStrategy) (game : Quoridor) :
    Option String × MinimaxStrategy :=
  match s.base.try_opening_move game with
  | (some opening_move, base') => (some opening_move, { s with base := base' })
  | (none, base') =>
    let s' : MinimaxStrategy := { s with base := base' }
    let legal_pawn_moves := game.get_legal_moves game.active_player
    match legal_pawn_moves.find? (fun m => game.win_check m) with
    | some winning => (some winning, s')
    | none =>
      let all_moves := legal_pawn_moves ++
        game.get_legal_walls game.active_player
      if all_moves.isEmpty then (none, s')
      else
        match minimaxRootLoop s' game all_moves FScore.negInf none with
        | some best_move => (some best_move, s')
        | none =>
          if ¬ (game.get_legal_moves game.active_player).isEmpty then
            (some ((game.get_legal_moves game.active_player).headD ""), s')
          else if ¬ (game.get_legal_walls game.active_player).isEmpty then
            (some ((game.get_legal_walls game.active_player).headD ""), s')
          else (none, s')

/-- `QuoridorStrategy::try_opening_move` with the two legal-move queries
abstracted: `legal_pawn` and `legal_walls` stand for whatever enumeration
the freshly seeded `HashSet`s yield on this invocation.
`try_opening_move` is the instance at the model's fixed enumeration. -/
def QuoridorStrategy.try_opening_move_from (s : QuoridorStrategy)
    (legal_pawn legal_walls : List String) :
    Option String × QuoridorStrategy :=
  if s.move_counter < s.opening_moves.length then
    let move_str := s.opening_moves.getD s.move_counter ""
    if move_str ∈ legal_pawn ∨ move_str ∈ legal_walls then
      (some move_str, { s with move_counter := s.move_counter + 1 })
    else
      (none, { s with move_counter := s.move_counter + 1 })
  else (none, s)

/-- `MinimaxStrategy::choose_move` with the invocation's legal-move
enumerations abstracted as `legal_pawn_moves` / `legal_wall_moves`: the
source builds a freshly seeded `HashSet` at every query, so the order of
the returned `Vec` (which the root loop's first-on-tie rule and the
`[0]`-indexing fallback depend on) can vary between queries.  Supplying
the lists once models one invocation under one enumeration;
`choose_move` is the instance at the model's fixed enumeration. -/
def MinimaxStrategy.choose_move_from (s : MinimaxStrategy) (game : Quoridor)
    (legal_pawn_moves legal_wall_moves : List String) :
    Option String × MinimaxStrategy :=
  match s.base.try_opening_move_from legal_pawn_moves legal_wall_moves with
  | (some opening_move, base') => (some opening_move, { s with base := base' })
  | (none, base') =>
    let s' : MinimaxStrategy := { s with base := base' }
    match legal_pawn_moves.find? (fun m => game.win_check m) with
    | some winning => (some winning, s')
    | none =>
      let all_moves := legal_pawn_moves ++ legal_wall_moves
      if all_moves.isEmpty then (none, s')
      else
        match minimaxRootLoop s' game all_moves FScore.negInf none with
        | some best_move => (some best_move, s')
        | none =>
          if ¬ legal_pawn_moves.isEmpty then
            (some (legal_pawn_moves.headD ""), s')
          else if ¬ legal_wall_moves.isEmpty then
            (some (legal_wall_moves.headD ""), s')
          else (none, s')

/-- `choose_move` is `choose_move_from` evaluated at the model's fixed
enumeration of the legal pawn moves and walls. -/
lemma choose_move_eq_from (s : MinimaxStrategy) (g : Quoridor) :
    s.choose_move g =
      s.choose_move_from g (g.get_legal_moves g.active_player)
        (g.get_legal_walls g.active_player) := rfl

/-! ## MCTS selection (`strategy/mcts.rs`)

Only the node model and the selection phase are needed by the claims.
The `f64` scores are modelled by exact rationals, with `f64::INFINITY`
as `⊤` in `WithTop ℚ`; the transcendental `ln` and `sqrt` of the UCT
exploration term are platform `libm` calls with no exact specification,
so they enter the model as an arbitrary function pair `FloatFns` and every
statement below is proved for all such pairs. -/

/-- Stand-ins for the `f64::ln` and `f64::sqrt` library calls. -/
structure FloatFns where
  ln : ℚ → ℚ
  sqrt : ℚ → ℚ

/-- The `MCTSNode` struct (children as a nested list). -/
inductive MCTSNode where
  | mk (move_str : String) (player_to_move : Player) (visits : Nat)
      (wins : ℚ) (children : List MCTSNode)
      (unexpanded_moves : List String)

/-- Field accessor: the move that led to this node. -/
def MCTSNode.move_str : MCTSNode → String
  | MCTSNode.mk m _ _ _ _ _ => m

/-- Field accessor: the player to move at this node. -/
def MCTSNode.player_to_move : MCTSNode → Player
  | MCTSNode.mk _ p _ _ _ _ => p

/-- Field accessor: visit count. -/
def MCTSNode.visits : MCTSNode → Nat
  | MCTSNode.mk _ _ v _ _ _ => v

/-- Field accessor: accumulated score. -/
def MCTSNode.wins : MCTSNode → ℚ
  | MCTSNode.mk _ _ _ w _ _ => w

/-- Field accessor: expanded children. -/
def MCTSNode.children : MCTSNode → List MCTSNode
  | MCTSNode.mk _ _ _ _ c _ => c

/-- The exploration constant set by `MCTSStrategy::new`
(`1.414`, an approximation of √2). -/
def mctsExplorationParam : ℚ := 1414 / 1000

/-- `MCTSNode::uct_value`: infinite priority for unvisited nodes, otherwise
the parent-perspective win rate `(visits - wins) / visits` plus the
exploration term `C·sqrt(ln(parent_visits) / visits)`. -/
def MCTSNode.uct_value (fns : FloatFns) (n : MCTSNode)
    (parent_visits : Nat) (exploration_param : ℚ) : WithTop ℚ :=
  if n.visits = 0 then ⊤
  else
    let win_rate_for_parent := ((n.visits : ℚ) - n.wins) / (n.visits : ℚ)
    let exploration := exploration_param *
      fns.sqrt (fns.ln (parent_visits : ℚ) / (n.visits : ℚ))
    (win_rate_for_parent + exploration : ℚ)

/-- The fold of `Iterator::max_by`: keep the accumulator, replacing it
whenever the next element compares greater **or equal** (so the last of
several maxima wins, as in Rust). -/
def rustMaxBy {α : Type} (score : α → WithTop ℚ) :
    List α → Option α → Option α
  | [], acc => acc
  | x :: rest, none => rustMaxBy score rest (some x)
  | x :: rest, some a =>
    rustMaxBy score rest (if score a ≤ score x then some x else some a)

/-- `MCTSNode::select_best_child_index`: index of the child with the
highest UCT value (`max_by` over the enumerated children). -/
def MCTSNode.select_best_child_index (fns : FloatFns) (n : MCTSNode)
    (exploration_param : ℚ) : Option Nat :=
  if n.children.isEmpty then none
  else
    let parent_visits := n.visits
    (rustMaxBy (fun p => MCTSNode.uct_value fns p.2 parent_visits
        exploration_param)
      n.children.enum none).map fun p => p.1

/-! ## Notation round trip (claim C3) -/

/-- Round trip of the notation layer on the standard 9×9 board, checked
exhaustively. -/
lemma roundtrip9 (r : Nat) (hr : r < 9) (c : Nat) (hc : c < 9) :
    (coord_to_algebraic (r, c) 9).bind (fun s => algebraic_to_coord s 9) =
      some (r, c) := by
  revert hc; revert c; revert hr; revert r; decide

/-- C3: For every valid coordinate `c` on a board of size 9, decoding the
algebraic encoding of `c` yields `c` back:
`algebraic_to_coord (coord_to_algebraic c) = c`. -/
theorem notation_roundtrip_size9 (r : Nat) (hr : r < 9) (c : Nat)
    (hc : c < 9) :
    (coord_to_algebraic (r, c) 9).bind (fun s => algebraic_to_coord s 9) =
      some (r, c) :=
  roundtrip9 r hr c hc

/-- Witness for C3 at the concrete coordinate `(4, 4)` (`"e5"`). -/
theorem notation_roundtrip_size9_witness :
    4 < 9 ∧
      (coord_to_algebraic (4, 4) 9).bind (fun s => algebraic_to_coord s 9) =
        some (4, 4) :=
  ⟨by decide, notation_roundtrip_size9 4 (by decide) 4 (by decide)⟩

/-! ## Concrete boards used by witnesses and counterexamples -/

/-- A fresh 3×3 board with one wall per player. -/
def board3 : Quoridor := Quoridor.mkNew 3 1

/-- A fresh 3×3 board with no walls. -/
def board3w0 : Quoridor := Quoridor.mkNew 3 0

/-- A fresh standard 9×9 board with ten walls per player. -/
def board9 : Quoridor := Quoridor.mkNew 9 10

/-! ## Opening-book consultation (claim C8) -/

/-- C8: While scripted opening moves remain, every call to
`try_opening_move` advances the internal counter by exactly one, whether or
not the scripted move is legal; a legal scripted move is returned, an
illegal one is permanently skipped (the result is `none` and control falls
through to the strategy's own algorithm). -/
theorem try_opening_move_spec (s : QuoridorStrategy) (g : Quoridor)
    (h : s.move_counter < s.opening_moves.length) :
    (s.try_opening_move g).2.move_counter = s.move_counter + 1 ∧
    (s.try_opening_move g).2.opening_moves = s.opening_moves ∧
    ((s.opening_moves.getD s.move_counter "" ∈
        g.get_legal_moves g.active_player ∨
      s.opening_moves.getD s.move_counter "" ∈
        g.get_legal_walls g.active_player) →
      (s.try_opening_move g).1 =
        some (s.opening_moves.getD s.move_counter "")) ∧
    ((s.opening_moves.getD s.move_counter "" ∉
        g.get_legal_moves g.active_player ∧
      s.opening_moves.getD s.move_counter "" ∉
        g.get_legal_walls g.active_player) →
      (s.try_opening_move g).1 = none) := by
  simp only [QuoridorStrategy.try_opening_move]
  rw [if_pos h]
  split_ifs with hleg
  · exact ⟨rfl, rfl, fun _ => rfl, fun hno => absurd hleg (by
      rcases hno with ⟨h1, h2⟩
      rintro (hc | hc)
      · exact h1 hc
      · exact h2 hc)⟩
  · exact ⟨rfl, rfl, fun hyes => absurd hyes hleg, fun _ => rfl⟩

/-- Witness for C8: a strategy whose next scripted move `"a1"` is legal on
a fresh 3×3 board; the call returns it and advances the counter to 1. -/
theorem try_opening_move_spec_witness :
    let s : QuoridorStrategy :=
      { name := "test", opening_moves := ["a1"], move_counter := 0 }
    s.move_counter < s.opening_moves.length ∧
      (s.try_opening_move board3).2.move_counter = s.move_counter + 1 :=
  ⟨by decide, (try_opening_move_spec _ board3 (by decide)).1⟩

/-! ## Unchecked wall placement with no walls left (claim C10) -/

/-- C10: With the active player's wall count at zero, an unchecked,
non-initialising `add_wall` on a well-formed wall move does not return
`false`: it reaches the unsigned decrement of the wall counter, which
underflows and panics (`none` in this model). -/
theorem add_wall_unchecked_zero_walls_panics (g : Quoridor) (w : String)
    (hw : g.walls_available.get g.active_player = 0)
    (hlen : 3 ≤ w.length)
    (hori : w.data.getLast? = some 'h' ∨ w.data.getLast? = some 'v')
    (hc : ∃ c, algebraic_to_coord (String.mk w.data.dropLast) g.size =
      some c) :
    g.add_wall w false false = none := by
  obtain ⟨c, hc⟩ := hc
  rcases hori with h | h <;>
  · simp only [Quoridor.add_wall, Quoridor.add_wall_internal,
      Quoridor.addWallFinish, h, hc]
    rw [if_neg (by omega)]
    cases hbl : get_blocked_edges_by_wall c _ g.size <;>
      simp [hbl, hw]

/-- Witness for C10: on a 3×3 board with zero walls, the unchecked
placement of `"a2h"` panics instead of returning `false`. -/
theorem add_wall_unchecked_zero_walls_panics_witness :
    board3w0.walls_available.get board3w0.active_player = 0 ∧
      board3w0.add_wall "a2h" false false = none :=
  ⟨by decide,
   add_wall_unchecked_zero_walls_panics board3w0 "a2h" (by decide)
     (by decide) (Or.inl (by decide)) ⟨(1, 0), by decide⟩⟩

/-! ## Failure semantics of checked operations (claim C2) -/

/-- `addWallFinish` never reports `false`: it either succeeds or panics. -/
lemma addWallFinish_not_false (g1 : Quoridor) (w : String) (i : Bool)
    (wc : Coord) (o : Char) (g' : Quoridor) :
    Quoridor.addWallFinish g1 w i wc o ≠ some (false, g') := by
  simp only [Quoridor.addWallFinish]
  split
  · simp
  · split_ifs <;> simp

/-- When `add_wall_internal` reports `false` the state is untouched. -/
lemma add_wall_internal_false_unchanged (g : Quoridor) (w : String)
    (i : Bool) (g' : Quoridor)
    (h : g.add_wall_internal w i = some (false, g')) : g' = g := by
  simp only [Quoridor.add_wall_internal] at h
  split at h
  · simp at h; exact h.symm
  · split at h
    · simp at h
    · split at h
      · exact absurd h (addWallFinish_not_false _ _ _ _ _ _)
      · exact absurd h (addWallFinish_not_false _ _ _ _ _ _)
      · simp at h; exact h.symm

/-- When `add_wall` reports `false` the state is untouched. -/
lemma add_wall_false_unchanged (g : Quoridor) (w : String) (i c : Bool)
    (g' : Quoridor) (h : g.add_wall w i c = some (false, g')) : g' = g := by
  simp only [Quoridor.add_wall] at h
  split_ifs at h
  · simp at h; exact h.symm
  · split at h
    · simp at h; exact h.symm
    · split_ifs at h
      · simp at h; exact h.symm
      · split at h
        · simp at h
        · split_ifs at h
          · simp at h; exact h.symm
          · exact add_wall_internal_false_unchanged _ _ _ _ h

/-- When `move_pawn` reports `false` the state is untouched. -/
lemma move_pawn_false_unchanged (g : Quoridor) (mv : String) (c : Bool)
    (g' : Quoridor) (h : g.move_pawn mv c = some (false, g')) : g' = g := by
  simp only [Quoridor.move_pawn] at h
  split at h
  · simp at h
  · split_ifs at h
    · simp at h; exact h.symm
    · simp at h

/-- A checked pawn move to a destination outside the legal-move list is
rejected with the state unchanged. -/
lemma move_pawn_illegal_rejected (g : Quoridor) (mv : String) (d : Coord)
    (hd : algebraic_to_coord mv g.size = some d)
    (hnl : mv ∉ g.get_legal_moves g.active_player) :
    g.move_pawn mv true = some (false, g) := by
  simp [Quoridor.move_pawn, hd, hnl]

/-- A checked wall move failing `is_wall_placement_valid` (overlap,
crossing, or connectivity) is rejected with the state unchanged. -/
lemma add_wall_invalid_rejected (g : Quoridor) (w : String) (ori : Char)
    (wc : Coord) (i : Bool) (hlen : 3 ≤ w.length)
    (hl : w.data.getLast? = some ori) (hov : ori = 'h' ∨ ori = 'v')
    (hd : algebraic_to_coord (String.mk w.data.dropLast) g.size = some wc)
    (hv : g.is_wall_placement_valid g.active_player wc ori = false) :
    g.add_wall w i true = some (false, g) := by
  simp only [Quoridor.add_wall, hl, hd]
  rw [if_neg (by omega)]
  rcases hov with h | h <;> subst h <;> simp [hv]

/-- Counterexample to C2 as stated: the malformed pawn-move string `"a0"`
(row `0` is out of range) makes checked `move_pawn` panic inside
`algebraic_to_coord` — modelled as `none` — instead of returning the
claimed failure boolean `false`. -/
theorem move_pawn_malformed_panics :
    board3.move_pawn "a0" true = none := by decide

/-- C2 (amended): in checked mode every `false` result of `move_pawn` or
`add_wall` leaves the state unchanged; an in-bounds pawn destination
outside the legal-move list and a wall failing `is_wall_placement_valid`
(in particular a connectivity-violating wall) are rejected this way — but
a notation string whose coordinate part does not decode (malformed or
out of bounds) panics in `algebraic_to_coord` rather than returning
`false`. -/
theorem checked_failure_semantics (g g' : Quoridor) (mv : String)
    (i : Bool) (ori : Char) (wc d : Coord) :
    (g.move_pawn mv true = some (false, g') → g' = g) ∧
    (g.add_wall mv i true = some (false, g') → g' = g) ∧
    (algebraic_to_coord mv g.size = some d →
      mv ∉ g.get_legal_moves g.active_player →
      g.move_pawn mv true = some (false, g)) ∧
    (3 ≤ mv.length → mv.data.getLast? = some ori →
      (ori = 'h' ∨ ori = 'v') →
      algebraic_to_coord (String.mk mv.data.dropLast) g.size = some wc →
      g.is_wall_placement_valid g.active_player wc ori = false →
      g.add_wall mv i true = some (false, g)) ∧
    (algebraic_to_coord mv g.size = none → g.move_pawn mv true = none) :=
  ⟨move_pawn_false_unchanged g mv true g',
   add_wall_false_unchanged g mv i true g',
   fun hd hnl => move_pawn_illegal_rejected g mv d hd hnl,
   fun hlen hl hov hd hv =>
     add_wall_invalid_rejected g mv ori wc i hlen hl hov hd hv,
   fun hn => by simp [Quoridor.move_pawn, hn]⟩

/-- A 3×3 position whose graph is missing the edge `a3 -- a2`, so that the
horizontal wall `"b2h"` would cut the last paths to the top row. -/
def boardCut : Quoridor :=
  { board3 with
    edges := removeEdge (initialize_board_graph 3) (0, 0) (1, 0) }

/-- Witness for the amended C2: on `boardCut` the connectivity-violating
wall `"b2h"` fails validation and checked `add_wall` rejects it leaving
the state unchanged. -/
theorem checked_failure_semantics_witness :
    boardCut.is_wall_placement_valid boardCut.active_player (1, 1) 'h' =
        false ∧
      boardCut.add_wall "b2h" false true = some (false, boardCut) :=
  ⟨by decide,
   (checked_failure_semantics boardCut boardCut "b2h" false 'h' (1, 1)
       (0, 0)).2.2.2.1
     (by decide) (by decide) (Or.inl rfl) (by decide) (by decide)⟩

/-! ## Bookkeeping of accepted moves (claim C9) -/

/-- Bookkeeping facts for a successful, non-initialising `addWallFinish`. -/
lemma addWallFinish_true_spec (g1 g' : Quoridor) (w : String) (wc : Coord)
    (o : Char)
    (h : Quoridor.addWallFinish g1 w false wc o = some (true, g')) :
    g'.active_player = g1.active_player.opponent ∧ g'.last_move = w ∧
    g'.previous_state = g1.state_string := by
  simp only [Quoridor.addWallFinish] at h
  cases hbl : get_blocked_edges_by_wall wc o g1.size <;>
    simp only [hbl] at h <;>
    split_ifs at h <;>
    first
    | (exfalso; simp_all; done)
    | · simp only [Option.some.injEq, Prod.mk.injEq, true_and] at h
        rw [← h]
        refine ⟨?_, ?_, ?_⟩ <;> simp [Quoridor.update_state_string]

/-- Bookkeeping facts for a successful, non-initialising
`add_wall_internal`. -/
lemma add_wall_internal_true_spec (g g' : Quoridor) (w : String)
    (h : g.add_wall_internal w false = some (true, g')) :
    g'.active_player = g.active_player.opponent ∧ g'.last_move = w ∧
    g'.previous_state = g.state_string := by
  simp only [Quoridor.add_wall_internal] at h
  split at h
  · simp at h
  · split at h
    · simp at h
    · split at h
      · have := addWallFinish_true_spec _ g' w _ _ h
        simpa using this
      · have := addWallFinish_true_spec _ g' w _ _ h
        simpa using this
      · simp at h

/-- Bookkeeping facts for a successful, non-initialising `add_wall`. -/
lemma add_wall_true_spec (g g' : Quoridor) (w : String) (c : Bool)
    (h : g.add_wall w false c = some (true, g')) :
    g'.active_player = g.active_player.opponent ∧ g'.last_move = w ∧
    g'.previous_state = g.state_string := by
  simp only [Quoridor.add_wall] at h
  split_ifs at h
  · simp at h
  · split at h
    · simp at h
    · split_ifs at h
      · simp at h
      · split at h
        · simp at h
        · split_ifs at h
          · simp at h
          · exact add_wall_internal_true_spec _ _ _ h

/-- Bookkeeping facts for a successful `move_pawn`. -/
lemma move_pawn_true_spec (g g' : Quoridor) (mv : String) (c : Bool)
    (h : g.move_pawn mv c = some (true, g')) :
    g'.active_player = g.active_player.opponent ∧ g'.last_move = mv ∧
    g'.previous_state = g.state_string := by
  simp only [Quoridor.move_pawn] at h
  split at h
  · simp at h
  · split_ifs at h
    · simp at h
    · simp only [Option.some.injEq, Prod.mk.injEq, true_and] at h
      rw [← h]
      refine ⟨?_, ?_, ?_⟩ <;> simp [Quoridor.update_state_string]

/-- C9: Every accepted non-initialising move application (`move_pawn`
returning `true`, or `add_wall` returning `true` with `is_initialising`
false) switches the active player, records the applied move string as
`last_move` and saves the pre-move state string as `previous_state`;
a rejected move changes nothing. -/
theorem accepted_move_bookkeeping (g g' : Quoridor) (mv : String)
    (c : Bool) :
    (g.move_pawn mv c = some (true, g') →
      g'.active_player = g.active_player.opponent ∧ g'.last_move = mv ∧
      g'.previous_state = g.state_string) ∧
    (g.add_wall mv false c = some (true, g') →
      g'.active_player = g.active_player.opponent ∧ g'.last_move = mv ∧
      g'.previous_state = g.state_string) ∧
    (g.move_pawn mv c = some (false, g') → g' = g) ∧
    (g.add_wall mv false c = some (false, g') → g' = g) :=
  ⟨move_pawn_true_spec g g' mv c,
   add_wall_true_spec g g' mv c,
   move_pawn_false_unchanged g mv c g',
   add_wall_false_unchanged g mv false c g'⟩

/-- The state reached from `board3` by the accepted pawn move `"b2"`. -/
def board3AfterB2 : Quoridor :=
  match board3.move_pawn "b2" true with
  | some (_, g) => g
  | none => board3

/-- Witness for C9: the accepted pawn move `"b2"` on a fresh 3×3 board
switches the player, records `last_move` and saves `previous_state`. -/
theorem accepted_move_bookkeeping_witness :
    board3.move_pawn "b2" true = some (true, board3AfterB2) ∧
      (board3AfterB2.active_player = board3.active_player.opponent ∧
       board3AfterB2.last_move = "b2" ∧
       board3AfterB2.previous_state = board3.state_string) :=
  ⟨by decide,
   (accepted_move_bookkeeping board3 board3AfterB2 "b2" true).1 (by decide)⟩

/-! ## Accepted wall placements: shared anatomy (claims C1 and C5) -/

/-- When the checked removal loop of `is_wall_placement_valid` succeeds,
the lenient removal loop of `add_wall_internal` produces exactly the same
graph. -/
lemma removeEdgesChecked_eq_lenient (size : Nat) :
    ∀ (bl : List (Coord × Coord)) (edges temp : List (Coord × Coord)),
      removeEdgesChecked size edges bl = some temp →
      removeEdgesLenient size edges bl = temp := by
  intro bl
  induction bl with
  | nil =>
    intro edges temp h
    simpa [removeEdgesChecked, removeEdgesLenient] using h
  | cons e rest ih =>
    intro edges temp h
    obtain ⟨u, v⟩ := e
    simp only [removeEdgesChecked, removeEdgesLenient] at h ⊢
    split_ifs at h ⊢
    exact ih _ _ h

/-- `optMin` is `some` whenever its right argument is. -/
lemma optMin_some_right (a : Option Nat) (d : Nat) :
    (optMin a (some d)).isSome := by
  cases a <;> simp [optMin]

/-- `optMin` is `some` whenever its left argument is. -/
lemma optMin_some_left (a : Option Nat) (b : Option Nat) (h : a.isSome) :
    (optMin a b).isSome := by
  cases a <;> cases b <;> simp_all [optMin]

/-- The goal fold of `get_shortest_path_len` stays `some` once an
accumulator value exists. -/
lemma foldl_goal_some_of_acc (size : Nat) (dmap : List (Coord × Nat))
    (l : List Coord) :
    ∀ acc : Option Nat, acc.isSome →
      (l.foldl (fun acc goal =>
        if inBoard size goal then optMin acc (List.lookup goal dmap)
        else acc) acc).isSome := by
  induction l with
  | nil => intro acc h; simpa using h
  | cons goal rest ih =>
    intro acc h
    simp only [List.foldl_cons]
    split_ifs with hg
    · exact ih _ (optMin_some_left _ _ h)
    · exact ih _ h

/-- The goal fold of `get_shortest_path_len` produces a value as soon as
one in-board goal has a recorded BFS distance. -/
lemma foldl_goal_some_of_mem (size : Nat) (dmap : List (Coord × Nat))
    (l : List Coord) (goal : Coord) :
    ∀ acc : Option Nat, goal ∈ l → inBoard size goal = true →
      (List.lookup goal dmap).isSome →
      (l.foldl (fun acc goal =>
        if inBoard size goal then optMin acc (List.lookup goal dmap)
        else acc) acc).isSome := by
  induction l with
  | nil => intro acc h; simp at h
  | cons x rest ih =>
    intro acc hmem hin hs
    simp only [List.foldl_cons]
    rcases List.mem_cons.mp hmem with rfl | hmem
    · rw [if_pos hin]
      obtain ⟨d, hd⟩ := Option.isSome_iff_exists.mp hs
      rw [hd]
      exact foldl_goal_some_of_acc size dmap rest _ (optMin_some_right _ _)
    · split_ifs with hg
      · exact ih _ hmem hin hs
      · exact ih _ hmem hin hs

/-- A passed `check_wall_path_blocking` yields, for each player, a defined
shortest-path length to the goal line on the same graph: both sides read
the same BFS distance map. -/
lemma check_wall_path_blocking_dist (edges : List (Coord × Coord))
    (size : Nat) (pawns : PMap Coord) (goals : PMap (List Coord))
    (h : check_wall_path_blocking edges size pawns goals = true)
    (p : Player) :
    ∃ d, get_shortest_path_len edges size (pawns.get p) (goals.get p) =
      some d := by
  have hp : (if inBoard size (pawns.get p) then
      (goals.get p).any fun goal =>
        inBoard size goal ∧ hasPathB edges (pawns.get p) goal
      else false) = true := by
    simp only [check_wall_path_blocking, List.all_cons, List.all_nil,
      Bool.and_true, Bool.and_eq_true] at h
    cases p
    · exact h.1
    · exact h.2
  by_cases hin : inBoard size (pawns.get p) = true
  · rw [if_pos hin] at hp
    obtain ⟨goal, hmem, hgoal⟩ := List.any_eq_true.mp hp
    simp only [Bool.and_eq_true, decide_eq_true_eq] at hgoal
    obtain ⟨hgin, hpath⟩ := hgoal
    have hsome : (get_shortest_path_len edges size (pawns.get p)
        (goals.get p)).isSome := by
      simp only [get_shortest_path_len, hin, if_true]
      exact foldl_goal_some_of_mem size _ _ goal none hmem hgin hpath
    exact Option.isSome_iff_exists.mp hsome
  · rw [if_neg hin] at hp
    simp at hp

/-- Decomposition of a passed `is_wall_placement_valid`: walls remain, the
overlap block passed, the wall's edges exist and were removed from a
temporary graph, and the connectivity check succeeded on it. -/
lemma is_wall_placement_valid_true_parts (g : Quoridor) (p : Player)
    (wc : Coord) (ori : Char)
    (h : g.is_wall_placement_valid p wc ori = true) :
    g.walls_available.get p ≠ 0 ∧
    g.wallOverlapFree wc ori = true ∧
    ∃ bl temp, get_blocked_edges_by_wall wc ori g.size = some bl ∧
      removeEdgesChecked g.size g.edges bl = some temp ∧
      check_wall_path_blocking temp g.size g.pawn_positions
        g.goal_positions = true := by
  simp only [Quoridor.is_wall_placement_valid] at h
  split_ifs at h with h1 h2
  refine ⟨h1, by simpa using h2, ?_⟩
  cases hbl : get_blocked_edges_by_wall wc ori g.size with
  | none => rw [hbl] at h; simp at h
  | some bl =>
    rw [hbl] at h
    have h' : (match removeEdgesChecked g.size g.edges bl with
        | some temp_graph =>
          check_wall_path_blocking temp_graph g.size g.pawn_positions
            g.goal_positions
        | none => false) = true := h
    cases hrm : removeEdgesChecked g.size g.edges bl with
    | none => rw [hrm] at h'; simp at h'
    | some temp =>
      rw [hrm] at h'
      exact ⟨bl, temp, rfl, hrm, h'⟩

/-- Decomposition of an accepted checked `add_wall`: a well-formed wall
string, a decoded anchor, a passed validity check, and the internal
application. -/
lemma add_wall_checked_true_parts (g g' : Quoridor) (w : String)
    (i : Bool) (h : g.add_wall w i true = some (true, g')) :
    ∃ ori wc, w.data.getLast? = some ori ∧ (ori = 'h' ∨ ori = 'v') ∧
      algebraic_to_coord (String.mk w.data.dropLast) g.size = some wc ∧
      g.is_wall_placement_valid g.active_player wc ori = true ∧
      g.add_wall_internal w i = some (true, g') := by
  simp only [Quoridor.add_wall] at h
  split_ifs at h
  · simp at h
  · split at h
    · simp at h
    · rename_i ori heq
      split_ifs at h with hbad
      · simp at h
      · split at h
        · simp at h
        · rename_i wc hdec
          split_ifs at h with hv
          · simp at h
          · refine ⟨ori, wc, heq, ?_, hdec, ?_, h⟩
            · rcases Decidable.not_and_iff_or_not.mp hbad with hh | hh
              · exact Or.inl (Decidable.not_not.mp hh)
              · exact Or.inr (Decidable.not_not.mp hh)
            · have hor := Decidable.not_and_iff_or_not.mp hv
              rcases hor with hh | hh
              · exact absurd trivial (by simp at hh)
              · simpa using Decidable.not_not.mp hh

/-- Field-level effect of a successful `addWallFinish`: only the edge list
(and, when not initialising, history/walls/active player) change; board
size, pawn positions, goal lines and the wall sets are preserved. -/
lemma addWallFinish_true_fields (g1 g' : Quoridor) (w : String) (i : Bool)
    (wc : Coord) (o : Char)
    (h : Quoridor.addWallFinish g1 w i wc o = some (true, g')) :
    g'.size = g1.size ∧ g'.pawn_positions = g1.pawn_positions ∧
    g'.goal_positions = g1.goal_positions ∧
    g'.hwall_positions = g1.hwall_positions ∧
    g'.vwall_positions = g1.vwall_positions ∧
    g'.edges = (match get_blocked_edges_by_wall wc o g1.size with
                | some bl => removeEdgesLenient g1.size g1.edges bl
                | none => g1.edges) := by
  simp only [Quoridor.addWallFinish] at h
  cases hbl : get_blocked_edges_by_wall wc o g1.size <;>
    simp only [hbl] at h <;>
    split_ifs at h <;>
    first
    | (exfalso; simp_all; done)
    | · simp only [Option.some.injEq, Prod.mk.injEq, true_and] at h
        rw [← h]
        refine ⟨?_, ?_, ?_, ?_, ?_, ?_⟩ <;>
          simp [Quoridor.update_state_string, hbl]

/-- Field-level effect of a successful `add_wall_internal`: the anchor is
recorded in the wall set of its orientation and the wall's edges are
removed; pawn positions, goal lines and the size are untouched. -/
lemma add_wall_internal_true_fields (g g' : Quoridor) (w : String)
    (i : Bool) (ori : Char) (wc : Coord)
    (heq : w.data.getLast? = some ori)
    (hdec : algebraic_to_coord (String.mk w.data.dropLast) g.size = some wc)
    (hov : ori = 'h' ∨ ori = 'v')
    (h : g.add_wall_internal w i = some (true, g')) :
    g'.size = g.size ∧ g'.pawn_positions = g.pawn_positions ∧
    g'.goal_positions = g.goal_positions ∧
    g'.edges = (match get_blocked_edges_by_wall wc ori g.size with
                | some bl => removeEdgesLenient g.size g.edges bl
                | none => g.edges) ∧
    (ori = 'h' → wc ∈ g'.hwall_positions) ∧
    (ori = 'v' → wc ∈ g'.vwall_positions) := by
  simp only [Quoridor.add_wall_internal, heq, hdec] at h
  rcases hov with rfl | rfl
  · have hf := addWallFinish_true_fields _ _ _ _ _ _ h
    refine ⟨by simpa using hf.1, by simpa using hf.2.1,
      by simpa using hf.2.2.1, by simpa using hf.2.2.2.2.2, ?_, by simp⟩
    intro _
    have hh := hf.2.2.2.1
    simp only at hh
    rw [hh]
    exact List.mem_insert_self wc g.hwall_positions
  · have hf := addWallFinish_true_fields _ _ _ _ _ _ h
    refine ⟨by simpa using hf.1, by simpa using hf.2.1,
      by simpa using hf.2.2.1, by simpa using hf.2.2.2.2.2,
      by simp, ?_⟩
    intro _
    have hh := hf.2.2.2.2.1
    simp only at hh
    rw [hh]
    exact List.mem_insert_self wc g.vwall_positions

/-! ## Connectivity invariant of accepted walls (claim C1) -/

/-- C1: Every wall placement accepted by checked `add_wall` leaves both
players with a defined (finite) shortest-path distance to their goal
lines: `distance_to_goal` returns the actual path length, not the
unreachable sentinel. -/
theorem accepted_wall_leaves_paths (g g' : Quoridor) (w : String)
    (h : g.add_wall w false true = some (true, g')) (p : Player) :
    ∃ d, get_shortest_path_len g'.edges g'.size (g'.pawn_positions.get p)
        (g'.goal_positions.get p) = some d ∧
      g'.distance_to_goal p = d := by
  obtain ⟨ori, wc, heq, hov, hdec, hvalid, hint⟩ :=
    add_wall_checked_true_parts g g' w false h
  obtain ⟨hw0, hoverlap, bl, temp, hbl, hrm, hcheck⟩ :=
    is_wall_placement_valid_true_parts g g.active_player wc ori hvalid
  obtain ⟨hsize, hpawns, hgoals, hedges, -, -⟩ :=
    add_wall_internal_true_fields g g' w false ori wc heq hdec hov hint
  have hlen : removeEdgesLenient g.size g.edges bl = temp :=
    removeEdgesChecked_eq_lenient g.size bl g.edges temp hrm
  have hedges' : g'.edges = temp := by
    rw [hedges, hbl]; exact hlen
  obtain ⟨d, hd⟩ :=
    check_wall_path_blocking_dist temp g.size g.pawn_positions
      g.goal_positions hcheck p
  refine ⟨d, ?_, ?_⟩
  · rw [hedges', hsize, hpawns, hgoals]
    exact hd
  · simp only [Quoridor.distance_to_goal, hedges', hsize, hpawns, hgoals,
      hd]

/-- The state reached from `board3` by the accepted wall `"a2h"`. -/
def board3AfterWall : Quoridor :=
  match board3.add_wall "a2h" false true with
  | some (_, g) => g
  | none => board3

/-- Witness for C1: the accepted wall `"a2h"` on a fresh 3×3 board leaves
both players with a defined distance to goal. -/
theorem accepted_wall_leaves_paths_witness :
    board3.add_wall "a2h" false true = some (true, board3AfterWall) ∧
      ∀ p : Player,
        ∃ d, get_shortest_path_len board3AfterWall.edges
            board3AfterWall.size (board3AfterWall.pawn_positions.get p)
            (board3AfterWall.goal_positions.get p) = some d ∧
          board3AfterWall.distance_to_goal p = d :=
  ⟨by decide,
   fun p =>
     accepted_wall_leaves_paths board3 board3AfterWall "a2h" (by decide) p⟩

/-! ## Wall exclusivity (claim C5) -/

/-- A failed overlap block forces `is_wall_placement_valid` to `false`. -/
lemma valid_false_of_overlap (gg : Quoridor) (p : Player) (wc : Coord)
    (ori : Char) (h : gg.wallOverlapFree wc ori = false) :
    gg.is_wall_placement_valid p wc ori = false := by
  simp [Quoridor.is_wall_placement_valid, h]

/-- A horizontal wall whose blocked edges exist has its anchor strictly
below the top row and its column at least two cells from the right edge. -/
lemma get_blocked_h_bounds (X : Coord) (size : Nat)
    (bl : List (Coord × Coord))
    (h : get_blocked_edges_by_wall X 'h' size = some bl) :
    X.1 > 0 ∧ X.2 + 1 < size := by
  simp only [get_blocked_edges_by_wall] at h
  split_ifs at h with hc
  exact hc

/-- With a horizontal wall at `X` recorded, the overlap block rejects the
identical anchor, both horizontally adjacent anchors in the same row, and
the crossing vertical anchor at the same junction. -/
lemma overlap_false_cases (gg : Quoridor) (X Y : Coord) (ori : Char)
    (hx : X ∈ gg.hwall_positions) (hxb : X.2 + 1 < gg.size)
    (hcase : (ori = 'h' ∧ (Y = X ∨ (Y.1 = X.1 ∧ Y.2 = X.2 + 1) ∨
        (Y.1 = X.1 ∧ X.2 = Y.2 + 1))) ∨ (ori = 'v' ∧ Y = X)) :
    gg.wallOverlapFree Y ori = false := by
  obtain ⟨xr, xc⟩ := X
  obtain ⟨yr, yc⟩ := Y
  simp only at hxb
  rcases hcase with ⟨rfl, hc⟩ | ⟨rfl, heqv⟩
  · simp only [Quoridor.wallOverlapFree]
    rcases hc with heq | ⟨h1, h2⟩ | ⟨h1, h2⟩
    · injection heq with e1 e2
      subst e1; subst e2
      rw [if_pos hx]
    · simp only at h1 h2
      subst h1; subst h2
      by_cases c1 : (yr, xc + 1) ∈ gg.hwall_positions
      · rw [if_pos c1]
      · rw [if_neg c1, if_pos ⟨by omega, by simpa using hx⟩]
    · simp only at h1 h2
      subst h1
      by_cases c1 : (yr, yc) ∈ gg.hwall_positions
      · rw [if_pos c1]
      · rw [if_neg c1]
        by_cases c2 : yc > 0 ∧ (yr, yc - 1) ∈ gg.hwall_positions
        · rw [if_pos c2]
        · rw [if_neg c2,
            if_pos ⟨by omega, show (yr, yc + 1) ∈ gg.hwall_positions by
              rw [← h2]; exact hx⟩]
  · injection heqv with e1 e2
    subst e1; subst e2
    simp only [Quoridor.wallOverlapFree]
    by_cases c1 : (yr, yc) ∈ gg.vwall_positions
    · rw [if_pos c1]
    · rw [if_neg c1]
      by_cases c2 : yr > 1 ∧ (yr - 1, yc) ∈ gg.vwall_positions
      · rw [if_pos c2]
      · rw [if_neg c2]
        by_cases c3 : yr + 1 < gg.size ∧ (yr + 1, yc) ∈ gg.vwall_positions
        · rw [if_pos c3]
        · rw [if_neg c3, if_pos hx]

/-- C5: After a horizontal wall whose move string `w0` (anchor `X`) has
been accepted by checked `add_wall`, a subsequent checked `add_wall` of
the identical wall, of a horizontal wall at an anchor adjacent to `X` in
the same row, or of a vertical wall crossing at the same junction, returns
`false` and leaves the state — in particular both wall counts —
unchanged. -/
theorem wall_exclusivity (g g' : Quoridor) (w0 w : String) (X Y : Coord)
    (ori : Char)
    (hacc : g.add_wall w0 false true = some (true, g'))
    (hw0l : w0.data.getLast? = some 'h')
    (hw0d : algebraic_to_coord (String.mk w0.data.dropLast) g.size = some X)
    (hwlen : 3 ≤ w.length)
    (hwl : w.data.getLast? = some ori)
    (hwd : algebraic_to_coord (String.mk w.data.dropLast) g'.size = some Y)
    (hcase : (ori = 'h' ∧ (Y = X ∨ (Y.1 = X.1 ∧ Y.2 = X.2 + 1) ∨
        (Y.1 = X.1 ∧ X.2 = Y.2 + 1))) ∨ (ori = 'v' ∧ Y = X)) :
    g'.add_wall w false true = some (false, g') := by
  obtain ⟨ori0, wc0, heq0, hov0, hdec0, hvalid0, hint0⟩ :=
    add_wall_checked_true_parts g g' w0 false hacc
  rw [hw0l] at heq0
  injection heq0 with heq0
  subst heq0
  rw [hw0d] at hdec0
  injection hdec0 with hdec0
  subst hdec0
  obtain ⟨-, -, bl, temp, hbl, -, -⟩ :=
    is_wall_placement_valid_true_parts g g.active_player X 'h' hvalid0
  obtain ⟨-, hxb⟩ := get_blocked_h_bounds X g.size bl hbl
  obtain ⟨hsize, -, -, -, hmem, -⟩ :=
    add_wall_internal_true_fields g g' w0 false 'h' X hw0l hw0d
      (Or.inl rfl) hint0
  have hx' : X ∈ g'.hwall_positions := hmem rfl
  have hxb' : X.2 + 1 < g'.size := by rw [hsize]; exact hxb
  have hov : ori = 'h' ∨ ori = 'v' := by
    rcases hcase with ⟨h, -⟩ | ⟨h, -⟩
    · exact Or.inl h
    · exact Or.inr h
  exact add_wall_invalid_rejected g' w ori Y false hwlen hwl hov hwd
    (valid_false_of_overlap g' g'.active_player Y ori
      (overlap_false_cases g' X Y ori hx' hxb' hcase))

/-- Witness for C5: after `"a2h"` is accepted on a 3×3 board, placing the
identical wall again is rejected and the state is unchanged. -/
theorem wall_exclusivity_witness :
    board3.add_wall "a2h" false true = some (true, board3AfterWall) ∧
      board3AfterWall.add_wall "a2h" false true =
        some (false, board3AfterWall) :=
  ⟨by decide,
   wall_exclusivity board3 board3AfterWall "a2h" "a2h" (1, 0) (1, 0) 'h'
     (by decide) (by decide) (by decide) (by decide) (by decide)
     (by decide) (Or.inl ⟨rfl, Or.inl rfl⟩)⟩
/-! ## MCTS child selection (claim C7) -/

/-- The `max_by` fold keeps a maximal element, preferring later elements on
ties, and its result comes from the accumulator or the list. -/
lemma rustMaxBy_spec {α : Type} (score : α → WithTop ℚ) :
    ∀ (l : List α) (acc : Option α) (r : α),
      rustMaxBy score l acc = some r →
      (acc = some r ∨ r ∈ l) ∧
      (∀ x ∈ l, score x ≤ score r) ∧
      (∀ a, acc = some a → score a ≤ score r) := by
  intro l
  induction l with
  | nil =>
    intro acc r h
    simp only [rustMaxBy] at h
    exact ⟨Or.inl h, by simp, fun a ha => by rw [ha] at h; simp at h; rw [h]⟩
  | cons x rest ih =>
    intro acc r h
    cases acc with
    | none =>
      simp only [rustMaxBy] at h
      obtain ⟨h1, h2, h3⟩ := ih (some x) r h
      refine ⟨?_, ?_, by simp⟩
      · rcases h1 with h1 | h1
        · injection h1 with h1; exact Or.inr (h1 ▸ List.mem_cons_self x rest)
        · exact Or.inr (List.mem_cons_of_mem x h1)
      · intro y hy
        rcases List.mem_cons.mp hy with rfl | hy
        · exact h3 y rfl
        · exact h2 y hy
    | some a =>
      simp only [rustMaxBy] at h
      by_cases hle : score a ≤ score x
      · rw [if_pos hle] at h
        obtain ⟨h1, h2, h3⟩ := ih (some x) r h
        refine ⟨?_, ?_, ?_⟩
        · rcases h1 with h1 | h1
          · injection h1 with h1
            exact Or.inr (h1 ▸ List.mem_cons_self x rest)
          · exact Or.inr (List.mem_cons_of_mem x h1)
        · intro y hy
          rcases List.mem_cons.mp hy with rfl | hy
          · exact h3 y rfl
          · exact h2 y hy
        · intro b hb
          injection hb with hb
          subst hb
          exact le_trans hle (h3 x rfl)
      · rw [if_neg hle] at h
        obtain ⟨h1, h2, h3⟩ := ih (some a) r h
        refine ⟨?_, ?_, ?_⟩
        · rcases h1 with h1 | h1
          · exact Or.inl h1
          · exact Or.inr (List.mem_cons_of_mem x h1)
        · intro y hy
          rcases List.mem_cons.mp hy with rfl | hy
          · exact le_trans (le_of_not_le hle) (h3 a rfl)
          · exact h2 y hy
        · exact h3

/-- A UCT value is infinite exactly for unvisited nodes. -/
lemma uct_value_top_iff (fns : FloatFns) (n : MCTSNode) (pv : Nat)
    (c : ℚ) : MCTSNode.uct_value fns n pv c = ⊤ ↔ n.visits = 0 := by
  constructor
  · intro h
    by_contra hn
    simp only [MCTSNode.uct_value, if_neg hn] at h
    exact (WithTop.coe_ne_top) h
  · intro h
    simp [MCTSNode.uct_value, h]

/-- C7: During MCTS selection the chosen child maximizes the UCT value
`(visits - wins)/visits + C·sqrt(ln(parent_visits)/visits)` with
`C = 1.414` (the strategy's exploration constant), the first term being
the win rate from the parent's mover's perspective; a child with zero
visits has infinite priority, so an unvisited child is always selected
before any visited one.  Stated for every model `fns` of the platform
`ln`/`sqrt` calls. -/
theorem select_best_child_spec (fns : FloatFns) (n : MCTSNode) (i : Nat)
    (h : n.select_best_child_index fns mctsExplorationParam = some i) :
    ∃ ch, n.children[i]? = some ch ∧
      (∀ ch' ∈ n.children,
        MCTSNode.uct_value fns ch' n.visits mctsExplorationParam ≤
        MCTSNode.uct_value fns ch n.visits mctsExplorationParam) ∧
      ((∃ ch' ∈ n.children, ch'.visits = 0) → ch.visits = 0) := by
  simp only [MCTSNode.select_best_child_index] at h
  split_ifs at h with hemp
  rw [Option.map_eq_some'] at h
  obtain ⟨⟨j, ch⟩, hmax, hfst⟩ := h
  simp only at hfst
  subst hfst
  obtain ⟨h1, h2, -⟩ := rustMaxBy_spec _ _ _ _ hmax
  have hmem : (j, ch) ∈ n.children.enum := by
    rcases h1 with h1 | h1
    · simp at h1
    · exact h1
  have hget : n.children[j]? = some ch :=
    List.mk_mem_enum_iff_getElem?.mp hmem
  refine ⟨ch, hget, ?_, ?_⟩
  · intro ch' hch'
    obtain ⟨k, hk⟩ := List.mem_iff_getElem?.mp hch'
    exact h2 (k, ch') (List.mk_mem_enum_iff_getElem?.mpr hk)
  · rintro ⟨ch', hch', hv⟩
    obtain ⟨k, hk⟩ := List.mem_iff_getElem?.mp hch'
    have htop : MCTSNode.uct_value fns ch' n.visits
        mctsExplorationParam = ⊤ :=
      (uct_value_top_iff fns ch' n.visits mctsExplorationParam).mpr hv
    have hle := h2 (k, ch') (List.mk_mem_enum_iff_getElem?.mpr hk)
    rw [htop] at hle
    exact (uct_value_top_iff fns ch n.visits mctsExplorationParam).mp
      (top_le_iff.mp hle)

/-- A concrete stand-in for the `ln`/`sqrt` pair (witness use only). -/
def uctFnsW : FloatFns := { ln := fun q => q, sqrt := fun q => q }

/-- A parent node with one unvisited child (witness use only). -/
def uctNodeW : MCTSNode :=
  MCTSNode.mk "root" Player.Player1 1 0
    [MCTSNode.mk "a1" Player.Player2 0 0 [] []] []

/-- Witness for C7: on a parent with a single unvisited child, selection
returns index `0`, the maximality and unvisited-priority conclusions
holding by the theorem. -/
theorem select_best_child_spec_witness :
    uctNodeW.select_best_child_index uctFnsW mctsExplorationParam =
        some 0 ∧
      ∃ ch, uctNodeW.children[0]? = some ch ∧
        (∀ ch' ∈ uctNodeW.children,
          MCTSNode.uct_value uctFnsW ch' uctNodeW.visits
              mctsExplorationParam ≤
            MCTSNode.uct_value uctFnsW ch uctNodeW.visits
              mctsExplorationParam) ∧
        ((∃ ch' ∈ uctNodeW.children, ch'.visits = 0) → ch.visits = 0) :=
  ⟨by decide, select_best_child_spec uctFnsW uctNodeW 0 (by decide)⟩

/-! ## Minimax repeatability (claim C6) -/

/-- A minimax strategy holding the opening book `["a1", "c1"]` (used by the
C6 counterexample). -/
def mmBookW : MinimaxStrategy :=
  { base := { name := "Minimax1", opening_moves := ["a1", "c1"],
              move_counter := 0 },
    depth := 1 }

/-- Counterexample to C6 as stated: with an opening book, repeated
invocations of the minimax strategy's `choose_move` on the *same* board
return different moves — the first call returns the scripted `"a1"` and
advances the internal counter, the second returns the scripted `"c1"`. -/
theorem minimax_choose_move_book_cex :
    ((mmBookW.choose_move board3).2.choose_move board3).1 ≠
      (mmBookW.choose_move board3).1 := by decide

/-- C6 (amended): once the opening book is exhausted (or absent), the only
randomness the minimax search consults is the per-invocation iteration
order of the freshly seeded legal-move `HashSet`s — the alpha-beta search
itself is a pure function and ties keep the first move in enumeration
order.  Hence: `choose_move` leaves the strategy state unchanged; under
*any* fixed enumeration (`lp`, `lw`) of the legal pawn moves and walls,
`choose_move_from` leaves the strategy state unchanged; and two
invocations that see the same enumeration return the identical move.
Across invocations the enumeration order, and with it the tie-broken
choice, can differ. -/
theorem minimax_choose_move_deterministic (s : MinimaxStrategy)
    (g : Quoridor) (lp lw : List String)
    (h : s.base.opening_moves.length ≤ s.base.move_counter) :
    (s.choose_move g).2 = s ∧
    (s.choose_move_from g lp lw).2 = s ∧
    ((s.choose_move_from g lp lw).2.choose_move_from g lp lw).1 =
      (s.choose_move_from g lp lw).1 := by
  have hopen : s.base.try_opening_move g = (none, s.base) := by
    simp only [QuoridorStrategy.try_opening_move]
    rw [if_neg (by omega)]
  have hopenf : s.base.try_opening_move_from lp lw = (none, s.base) := by
    simp only [QuoridorStrategy.try_opening_move_from]
    rw [if_neg (by omega)]
  have h1 : (s.choose_move g).2 = s := by
    simp only [MinimaxStrategy.choose_move, hopen]
    split
    · rfl
    · split_ifs <;> first | rfl | (split <;> rfl)
  have h2 : (s.choose_move_from g lp lw).2 = s := by
    simp only [MinimaxStrategy.choose_move_from, hopenf]
    split
    · rfl
    · split_ifs <;> first | rfl | (split <;> rfl)
  exact ⟨h1, h2, by rw [h2]⟩

/-- A bookless depth-1 minimax strategy (used by the C6 witness). -/
def mmNoBookW : MinimaxStrategy :=
  { base := QuoridorStrategy.new "Minimax1" "" [], depth := 1 }

/-- Witness for the amended C6: a bookless depth-1 minimax strategy on a
fresh 3×3 board, under the concrete enumeration `["b1"]` of the pawn
moves and no walls. -/
theorem minimax_choose_move_deterministic_witness :
    (mmNoBookW.base.opening_moves.length ≤ mmNoBookW.base.move_counter) ∧
    ((mmNoBookW.choose_move board3).2 = mmNoBookW ∧
     (mmNoBookW.choose_move_from board3 ["b1"] []).2 = mmNoBookW ∧
     ((mmNoBookW.choose_move_from board3 ["b1"]
         []).2.choose_move_from board3 ["b1"] []).1 =
       (mmNoBookW.choose_move_from board3 ["b1"] []).1) :=
  ⟨by decide,
   minimax_choose_move_deterministic mmNoBookW board3 ["b1"] []
     (by decide)⟩

/-! ## Jump rule (claim C4) -/

/-- Orthogonal adjacency of two cells (distance one in exactly one axis). -/
def orthAdjacent (a b : Coord) : Prop :=
  (a.1 = b.1 ∧ (a.2 + 1 = b.2 ∨ b.2 + 1 = a.2)) ∨
  (a.2 = b.2 ∧ (a.1 + 1 = b.1 ∨ b.1 + 1 = a.1))

/-- Adjacency is decidable. -/
instance (a b : Coord) : Decidable (orthAdjacent a b) := by
  unfold orthAdjacent
  infer_instance

/-- Well-formed edge lists: every edge joins orthogonally adjacent
in-board cells.  `initialize_board_graph` establishes this and edge
removal preserves it. -/
def edgesWF (size : Nat) (edges : List (Coord × Coord)) : Prop :=
  ∀ e ∈ edges, orthAdjacent e.1 e.2 ∧ e.1.1 < size ∧ e.1.2 < size ∧
    e.2.1 < size ∧ e.2.2 < size

/-- Well-formedness is decidable. -/
instance (size : Nat) (edges : List (Coord × Coord)) :
    Decidable (edgesWF size edges) := by
  unfold edgesWF
  infer_instance

/-- Adjacency is symmetric. -/
lemma orthAdjacent_symm {a b : Coord} (h : orthAdjacent a b) :
    orthAdjacent b a := by
  unfold orthAdjacent at h ⊢
  omega

/-- `neighbors` membership coincides with `contains_edge`. -/
lemma mem_neighborsList {edges : List (Coord × Coord)} {a b : Coord} :
    b ∈ neighborsList edges a ↔ containsEdge edges a b = true := by
  simp only [neighborsList, List.mem_filterMap, containsEdge,
    List.any_eq_true, decide_eq_true_eq]
  constructor
  · rintro ⟨e, he, hb⟩
    refine ⟨e, he, ?_⟩
    split_ifs at hb with h1 h2
    · exact Or.inl ⟨h1, by injection hb⟩
    · exact Or.inr ⟨by injection hb, h2⟩
  · rintro ⟨e, he, (⟨h1, h2⟩ | ⟨h1, h2⟩)⟩
    · exact ⟨e, he, by rw [if_pos h1, h2]⟩
    · refine ⟨e, he, ?_⟩
      by_cases ha : e.1 = a
      · rw [if_pos ha, h2, ← ha, h1]
      · rw [if_neg ha, if_pos h2, h1]

/-- In a well-formed graph, edge endpoints are adjacent and in board. -/
lemma containsEdge_wf {size : Nat} {edges : List (Coord × Coord)}
    {a b : Coord} (hwf : edgesWF size edges)
    (h : containsEdge edges a b = true) :
    orthAdjacent a b ∧ a.1 < size ∧ a.2 < size ∧ b.1 < size ∧
      b.2 < size := by
  simp only [containsEdge, List.any_eq_true, decide_eq_true_eq] at h
  obtain ⟨e, he, (⟨h1, h2⟩ | ⟨h1, h2⟩)⟩ := h
  · obtain ⟨hadj, hb⟩ := hwf e he
    rw [h1, h2] at hadj hb
    exact ⟨hadj, hb⟩
  · obtain ⟨hadj, hb⟩ := hwf e he
    rw [h1, h2] at hadj hb
    exact ⟨orthAdjacent_symm hadj, hb.2.2.1, hb.2.2.2, hb.1, hb.2.1⟩

/-- `get_legal_moves` membership through the coordinate set. -/
lemma mem_get_legal_moves {g : Quoridor} {player : Player} {s : String} :
    s ∈ g.get_legal_moves player ↔
      ∃ c ∈ g.legal_pawn_coords player, coordAlg c g.size = s := by
  simp [Quoridor.get_legal_moves, List.mem_dedup]

/-- `legal_pawn_coords` membership through the per-neighbour branches. -/
lemma mem_legal_pawn_coords {g : Quoridor} {player : Player} {c : Coord} :
    c ∈ g.legal_pawn_coords player ↔
      ∃ nb ∈ neighborsList g.edges (g.pawn_positions.get player),
        c ∈ pawnMoveCandidates g (g.pawn_positions.get player)
          (g.pawn_positions.get player.opponent) nb := by
  simp [Quoridor.legal_pawn_coords]

/-- The straight-jump landing square is two steps from the mover, hence
never adjacent to it. -/
lemma not_adj_jumpLanding {size : Nat} {own opp : Coord}
    (h : orthAdjacent own opp)
    (hb : jumpOnBoard size (jumpLanding own opp) = true) :
    ¬ orthAdjacent own
      ((jumpLanding own opp).1.toNat, (jumpLanding own opp).2.toNat) := by
  obtain ⟨a1, a2⟩ := own
  obtain ⟨b1, b2⟩ := opp
  intro hadj
  simp only [jumpOnBoard, jumpLanding, Bool.and_eq_true,
    decide_eq_true_eq] at hb hadj
  unfold orthAdjacent at h hadj
  simp only at h hadj hb
  omega

/-- No neighbour of the mover equals the straight-jump landing square. -/
lemma jump_ne_adjacent {size : Nat} {own opp nb : Coord}
    (h : orthAdjacent own opp)
    (hb : jumpOnBoard size (jumpLanding own opp) = true)
    (hnb : orthAdjacent own nb) :
    nb ≠ ((jumpLanding own opp).1.toNat, (jumpLanding own opp).2.toNat) := by
  intro heq
  rw [heq] at hnb
  exact not_adj_jumpLanding h hb hnb

/-- The straight-jump landing square as a `Coord` (the source's
`(jump_r as usize, jump_c as usize)` on an on-board landing). -/
def jumpCoord (own opp : Coord) : Coord :=
  ((jumpLanding own opp).1.toNat, (jumpLanding own opp).2.toNat)

/-- Open straight jump: the landing square is the sole contribution of
the opponent-neighbour branch. -/
lemma mem_candidates_opp_jump {g : Quoridor} {own opp : Coord}
    (hob : jumpOnBoard g.size (jumpLanding own opp) = true)
    (he : containsEdge g.edges opp (jumpCoord own opp) = true) :
    jumpCoord own opp ∈ pawnMoveCandidates g own opp opp := by
  simp only [jumpCoord] at he ⊢
  simp only [pawnMoveCandidates, if_pos rfl, if_true]
  rw [if_pos ⟨hob, he⟩]
  exact List.mem_singleton.mpr rfl

/-- Blocked straight jump: every opponent neighbour other than the
mover's cell is contributed. -/
lemma mem_candidates_opp_blocked {g : Quoridor} {own opp nb : Coord}
    (hcond : ¬ (jumpOnBoard g.size (jumpLanding own opp) = true ∧
      containsEdge g.edges opp (jumpCoord own opp) = true))
    (hnbmem : nb ∈ neighborsList g.edges opp) (hne : nb ≠ own) :
    nb ∈ pawnMoveCandidates g own opp opp := by
  simp only [jumpCoord] at hcond
  simp only [pawnMoveCandidates, if_pos rfl, if_true]
  rw [if_neg hcond]
  exact List.mem_filter.mpr ⟨hnbmem, by simpa using hne⟩

/-- Blocked straight jump: the opponent-neighbour branch contributes only
opponent neighbours other than the mover's cell. -/
lemma candidates_opp_blocked_sub {g : Quoridor} {own opp c : Coord}
    (hcond : ¬ (jumpOnBoard g.size (jumpLanding own opp) = true ∧
      containsEdge g.edges opp (jumpCoord own opp) = true))
    (hc : c ∈ pawnMoveCandidates g own opp opp) :
    c ∈ neighborsList g.edges opp ∧ c ≠ own := by
  simp only [jumpCoord] at hcond
  simp only [pawnMoveCandidates, if_pos rfl, if_true] at hc
  rw [if_neg hcond] at hc
  have hf := List.mem_filter.mp hc
  exact ⟨hf.1, by simpa using hf.2⟩

/-- A neighbour that is not the opponent contributes only itself. -/
lemma candidates_ne_opp {g : Quoridor} {own opp nb c : Coord}
    (hne : nb ≠ opp) (hc : c ∈ pawnMoveCandidates g own opp nb) :
    c = nb := by
  simp only [pawnMoveCandidates, if_neg hne] at hc
  exact List.mem_singleton.mp hc

/-- C4 (amended): In any well-formed position, of any board size, where
the two pawns are orthogonally adjacent **and connected by an edge** (no
wall between them), the collected destination-cell set `legal_pawn_coords`
(the source's `legal_coords` set, of which `get_legal_moves` is the
algebraic-notation image) contains the straight-jump cell exactly when an
edge exists between the opponent's cell and the on-board landing cell —
and then the jump's notation string is a legal move; when the straight
jump is blocked (no such edge, or landing off-board), every
graph-neighbour of the opponent's cell other than the mover's cell is
contributed instead.  The exclusion is stated on the cell set because
notation strings identify cells only within the notation's range. -/
theorem jump_rule_spec (g : Quoridor) (player : Player)
    (hwf : edgesWF g.size g.edges)
    (hadj : orthAdjacent (g.pawn_positions.get player)
      (g.pawn_positions.get player.opponent))
    (hedge : containsEdge g.edges (g.pawn_positions.get player)
      (g.pawn_positions.get player.opponent) = true) :
    (jumpOnBoard g.size (jumpLanding (g.pawn_positions.get player)
        (g.pawn_positions.get player.opponent)) = true →
      containsEdge g.edges (g.pawn_positions.get player.opponent)
        (jumpCoord (g.pawn_positions.get player)
          (g.pawn_positions.get player.opponent)) = true →
      jumpCoord (g.pawn_positions.get player)
          (g.pawn_positions.get player.opponent) ∈
        g.legal_pawn_coords player ∧
      coordAlg (jumpCoord (g.pawn_positions.get player)
        (g.pawn_positions.get player.opponent)) g.size ∈
        g.get_legal_moves player) ∧
    (jumpOnBoard g.size (jumpLanding (g.pawn_positions.get player)
        (g.pawn_positions.get player.opponent)) = true →
      containsEdge g.edges (g.pawn_positions.get player.opponent)
        (jumpCoord (g.pawn_positions.get player)
          (g.pawn_positions.get player.opponent)) = false →
      jumpCoord (g.pawn_positions.get player)
          (g.pawn_positions.get player.opponent) ∉
        g.legal_pawn_coords player) ∧
    (¬ (jumpOnBoard g.size (jumpLanding (g.pawn_positions.get player)
        (g.pawn_positions.get player.opponent)) = true ∧
       containsEdge g.edges (g.pawn_positions.get player.opponent)
        (jumpCoord (g.pawn_positions.get player)
          (g.pawn_positions.get player.opponent)) = true) →
      ∀ nb ∈ neighborsList g.edges (g.pawn_positions.get player.opponent),
        nb ≠ g.pawn_positions.get player →
        nb ∈ g.legal_pawn_coords player ∧
        coordAlg nb g.size ∈ g.get_legal_moves player) := by
  refine ⟨?_, ?_, ?_⟩
  · intro hob he
    have hmem : jumpCoord (g.pawn_positions.get player)
        (g.pawn_positions.get player.opponent) ∈
          g.legal_pawn_coords player :=
      mem_legal_pawn_coords.mpr
        ⟨_, mem_neighborsList.mpr hedge,
         mem_candidates_opp_jump hob he⟩
    exact ⟨hmem, mem_get_legal_moves.mpr ⟨_, hmem, rfl⟩⟩
  · intro hob he hmem
    obtain ⟨nb, hnb, hcand⟩ := mem_legal_pawn_coords.mp hmem
    have hcond : ¬ (jumpOnBoard g.size (jumpLanding
        (g.pawn_positions.get player)
        (g.pawn_positions.get player.opponent)) = true ∧
        containsEdge g.edges (g.pawn_positions.get player.opponent)
          (jumpCoord (g.pawn_positions.get player)
            (g.pawn_positions.get player.opponent)) = true) := by
      rintro ⟨-, h2⟩
      rw [he] at h2
      exact Bool.false_ne_true h2
    by_cases hnbo : nb = g.pawn_positions.get player.opponent
    · subst hnbo
      obtain ⟨hcnb, -⟩ := candidates_opp_blocked_sub hcond hcand
      have hce := mem_neighborsList.mp hcnb
      rw [he] at hce
      exact Bool.false_ne_true hce
    · have hceq := candidates_ne_opp hnbo hcand
      have hnbe := mem_neighborsList.mp hnb
      obtain ⟨hnadj, -⟩ := containsEdge_wf hwf hnbe
      exact jump_ne_adjacent hadj hob hnadj hceq.symm
  · intro hcond nb hnbmem hnbne
    have hmem : nb ∈ g.legal_pawn_coords player :=
      mem_legal_pawn_coords.mpr
        ⟨_, mem_neighborsList.mpr hedge,
         mem_candidates_opp_blocked hcond hnbmem hnbne⟩
    exact ⟨hmem, mem_get_legal_moves.mpr ⟨_, hmem, rfl⟩⟩

/-- A 9×9 position with the pawns adjacent on e5/e6 and the horizontal
wall `e5h` between them (its two vertical edges removed).  The edge from
e6 up to e7 is intact. -/
def boardJumpBlocked : Quoridor :=
  { Quoridor.mkNew 9 10 with
    pawn_positions := { p1 := (4, 4), p2 := (3, 4) }
    hwall_positions := [(4, 4)]
    edges := removeEdgesLenient 9 (initialize_board_graph 9)
      [((3, 4), (4, 4)), ((3, 5), (4, 5))] }

set_option maxRecDepth 40000 in
/-- Counterexample to C4 as stated: on `boardJumpBlocked` the two pawns
are orthogonally adjacent and an edge exists between the opponent's cell
e6 and the landing cell e7, yet `"e7"` is not among player 1's legal
moves — the jump logic only fires when the pawns are also connected by an
edge, which the wall between them removed. -/
theorem jump_rule_cex :
    orthAdjacent (boardJumpBlocked.pawn_positions.get Player.Player1)
      (boardJumpBlocked.pawn_positions.get Player.Player2) ∧
    jumpOnBoard boardJumpBlocked.size (jumpLanding (4, 4) (3, 4)) = true ∧
    containsEdge boardJumpBlocked.edges (3, 4)
      (jumpCoord (4, 4) (3, 4)) = true ∧
    coordAlg (jumpCoord (4, 4) (3, 4)) boardJumpBlocked.size ∉
      boardJumpBlocked.get_legal_moves Player.Player1 := by decide

/-- A 9×9 position with the pawns adjacent on e5/e6 and no walls. -/
def board9adj : Quoridor :=
  { Quoridor.mkNew 9 10 with
    pawn_positions := { p1 := (4, 4), p2 := (3, 4) } }

set_option maxRecDepth 40000 in
/-- Witness for the amended C4: on `board9adj` the landing cell `"e7"` is
reachable by the straight jump and is among player 1's legal moves. -/
theorem jump_rule_spec_witness :
    edgesWF board9adj.size board9adj.edges ∧
      coordAlg (jumpCoord (board9adj.pawn_positions.get Player.Player1)
          (board9adj.pawn_positions.get
            Player.Player1.opponent)) board9adj.size ∈
        board9adj.get_legal_moves Player.Player1 :=
  ⟨by decide,
   ((jump_rule_spec board9adj Player.Player1 (by decide) (by decide)
       (by decide)).1 (by decide) (by decide)).2⟩
